import Mathlib

/-!
# Trip ledger of the angkot bot: SQLite repository

A shallow embedding of `internal/infrastructure/database/sqlite.go`:
the tables `drivers`, `departures`, `departure_passengers`, `returns`,
`return_passengers`, the trip-count query `GetPassengerTripPrice` and the two
transactional writers `SaveDeparture` and `SaveReturn`; and of the routing of
one incoming text in `internal/infrastructure/bot/telegram.go`.

Modelling conventions.

* A table is the list of its rows in rowid order.  A `SELECT` read through
  `QueryRow` yields the first matching row.
* `INTEGER PRIMARY KEY AUTOINCREMENT`: no statement of the repository deletes
  a row of `drivers`, `departures` or `returns`, so the id given to a new row
  is one more than the largest id in the table.
* Time.  `CURRENT_TIMESTAMP` and `date('now')` are UTC in SQLite, whereas
  `time.Now().Format("2006-01-02")` is the calendar day of the process's local
  zone.  A `Clock` carries the UTC second count and the zone offset; one call
  reads one clock.
* Store failures are explicit: a `Faults` value says which statement of a
  call fails.
* `database/sql`: `tx.QueryRow` / `tx.Exec` run on the connection of the
  transaction and act on its working copy; `db.db.QueryRow` takes another
  connection of the pool and reads the committed database.  A transaction
  that is rolled back, or whose `Commit` fails, commits nothing.
* `SaveDeparture` and `SaveReturn` are the same text up to the names of the
  two tables they work on; they are embedded as one function `saveLeg` of the
  kind of leg, and the four inline price computations are kept as four
  definitions.
* Table `passengers` and the listing queries play no part in the writers and
  are left out.
-/

namespace Angkot

/-! ## Data model -/

/-- The two price constants of package `constants`, which the repository file
imports; their values are a parameter of the development. -/
structure Constants where
  SingleTripPrice : Int
  RoundTripPrice : Int
deriving DecidableEq

/-- Row of table `drivers (id, name, created_at)`. -/
structure DriverRow where
  id : Nat
  name : String
  created_at : Nat
deriving DecidableEq

/-- Row of table `departures` or `returns`: `(id, driver_id, created_at, price)`. -/
structure LegRow where
  id : Nat
  driver_id : Nat
  created_at : Nat
  price : Int
deriving DecidableEq

/-- Row of table `departure_passengers` or `return_passengers`:
`(departure_id | return_id, passenger_name, price)`. -/
structure ItemRow where
  leg_id : Nat
  passenger_name : String
  price : Int
deriving DecidableEq

/-- The database file: the tables that the trip ledger reads and writes. -/
structure Store where
  drivers : List DriverRow
  departures : List LegRow
  departure_passengers : List ItemRow
  returns : List LegRow
  return_passengers : List ItemRow
deriving DecidableEq

/-- The database right after `initializeTables` on a fresh file. -/
def Store.empty : Store := ⟨[], [], [], [], []⟩

/-- Which pair of tables a writer works on: `departures` with
`departure_passengers`, or `returns` with `return_passengers`. -/
inductive Kind where
  | Departure
  | Return
deriving DecidableEq

/-- The leg table of a kind. -/
def Store.legs (s : Store) : Kind → List LegRow
  | .Departure => s.departures
  | .Return => s.returns

/-- The line-item table of a kind. -/
def Store.items (s : Store) : Kind → List ItemRow
  | .Departure => s.departure_passengers
  | .Return => s.return_passengers

/-- Replace the leg table of a kind. -/
def Store.setLegs (s : Store) : Kind → List LegRow → Store
  | .Departure, ls => { s with departures := ls }
  | .Return, ls => { s with returns := ls }

/-- Replace the line-item table of a kind. -/
def Store.setItems (s : Store) : Kind → List ItemRow → Store
  | .Departure, is => { s with departure_passengers := is }
  | .Return, is => { s with return_passengers := is }

/-! ## Time -/

/-- One reading of the clock: `now` is the UTC time in seconds since the
epoch (what `CURRENT_TIMESTAMP` stores and `'now'` denotes), `zone` the offset
in seconds of the local zone of the process. -/
structure Clock where
  now : Nat
  zone : Int
deriving DecidableEq

/-- SQLite `date(ts)` of a stored UTC timestamp, as a day number. -/
def sqlDate (ts : Nat) : Int := (ts : Int) / 86400

/-- Go `time.Now().Format("2006-01-02")`: the local calendar day, as a day
number; `date(?)` of that text is the same day. -/
def Clock.today (c : Clock) : Int := ((c.now : Int) + c.zone) / 86400

/-! ## Store failures -/

/-- Error values returned by the repository. -/
inductive Err where
  | ErrNoRows
  | ErrStore
deriving DecidableEq

/-- Which statements of one `SaveDeparture` / `SaveReturn` call fail.  The
trip-count query and the line-item insert are indexed by the position of the
passenger in the list. -/
structure Faults where
  begin : Bool
  driverQuery : Bool
  legQuery : Bool
  delete : Bool
  update : Bool
  legInsert : Bool
  lastInsertId : Bool
  tripCount : Nat → Bool
  itemInsert : Nat → Bool
  commit : Bool

/-- The store works: no statement fails. -/
def noFaults : Faults :=
  ⟨false, false, false, false, false, false, false, fun _ => false, fun _ => false, false⟩

/-! ## Queries -/

/-- Result rows of
`SELECT ... FROM <items> i JOIN <legs> l ON i.<leg>_id = l.id
 WHERE i.passenger_name = ? AND date(l.created_at) = <day>`:
every line item, once per leg row it joins with. -/
def joinToday (legs : List LegRow) (name : String) (day : Int) : List ItemRow → List ItemRow
  | [] => []
  | it :: rest =>
    (legs.filter fun l =>
        l.id == it.leg_id && it.passenger_name == name && sqlDate l.created_at == day).map
      (fun _ => it) ++ joinToday legs name day rest

/-- The value `trip_count` selected by `GetPassengerTripPrice`: the two
`COUNT(*)` sub-selects added, with `date('now')` as the day. -/
def tripCount (db : Store) (clk : Clock) (passengerName : String) : Nat :=
  (joinToday db.departures passengerName (sqlDate clk.now) db.departure_passengers).length
    + (joinToday db.returns passengerName (sqlDate clk.now) db.return_passengers).length

/-- Method `GetPassengerTripPrice`: runs on `db.db`, that is on the committed
database `db`; `fail` is the failure of `QueryRow(...).Scan`. -/
def GetPassengerTripPrice (fail : Bool) (db : Store) (clk : Clock) (passengerName : String) :
    Except Err Nat :=
  if fail then .error .ErrStore else .ok (tripCount db clk passengerName)

/-- The driver lookup
`tx.QueryRow("SELECT id FROM drivers WHERE name = ?", driverName).Scan(&driverID)`. -/
def queryDriverID (fail : Bool) (t : Store) (driverName : String) : Except Err Nat :=
  if fail then .error .ErrStore
  else match t.drivers.find? (fun d => d.name == driverName) with
    | some d => .ok d.id
    | none => .error .ErrNoRows

/-- The lookup of the leg of today, `tx.QueryRow("SELECT id FROM <legs> WHERE driver_id = ? AND
date(created_at) = date(?)", driverID, today).Scan(&existingID)`. -/
def queryLegID (fail : Bool) (legs : List LegRow) (driverID : Nat) (today : Int) :
    Except Err Nat :=
  if fail then .error .ErrStore
  else match legs.find? (fun l => l.driver_id == driverID && sqlDate l.created_at == today) with
    | some l => .ok l.id
    | none => .error .ErrNoRows

/-- The id that `AUTOINCREMENT` gives to the next row of a leg table. -/
def nextId (legs : List LegRow) : Nat := (legs.map (·.id)).foldr max 0 + 1

/-! ## Statements on one pair of tables -/

/-- Statement `DELETE FROM <items> WHERE <leg>_id = ?`. -/
def deleteItems (legID : Nat) (items : List ItemRow) : List ItemRow :=
  items.filter fun it => it.leg_id != legID

/-- Statement `UPDATE <legs> SET created_at = CURRENT_TIMESTAMP WHERE id = ?`. -/
def touchLeg (now : Nat) (legID : Nat) (legs : List LegRow) : List LegRow :=
  legs.map fun l => if l.id == legID then { l with created_at := now } else l

/-- Statement `INSERT INTO <legs> (driver_id) VALUES (?)`: `created_at` and `price` take
their column defaults, `CURRENT_TIMESTAMP` and `10000`. -/
def insertLeg (now : Nat) (driverID : Nat) (legs : List LegRow) : List LegRow :=
  legs ++ [⟨nextId legs, driverID, now, 10000⟩]

/-! ## The four pricing sites -/

/-- Price computed in `SaveDeparture` when the leg was found (lines 228-234). -/
def priceDepartureExisting (c : Constants) (tripCount : Nat) : Int :=
  if tripCount = 0 then c.SingleTripPrice
  else c.RoundTripPrice - c.SingleTripPrice

/-- Price computed in `SaveDeparture` when the leg was created (lines 261-266). -/
def priceDepartureNew (c : Constants) (tripCount : Nat) : Int :=
  if tripCount = 0 then c.SingleTripPrice
  else c.RoundTripPrice - c.SingleTripPrice

/-- Price computed in `SaveReturn` when the leg was found (lines 325-330). -/
def priceReturnExisting (c : Constants) (tripCount : Nat) : Int :=
  if tripCount = 0 then c.SingleTripPrice
  else c.RoundTripPrice - c.SingleTripPrice

/-- Price computed in `SaveReturn` when the leg was created (lines 357-362). -/
def priceReturnNew (c : Constants) (tripCount : Nat) : Int :=
  if tripCount = 0 then c.SingleTripPrice
  else c.RoundTripPrice - c.SingleTripPrice

/-- The pricing site reached for a kind of leg and a branch of the lookup. -/
def priceSite (c : Constants) : Kind → Bool → Nat → Int
  | .Departure, true => priceDepartureExisting c
  | .Departure, false => priceDepartureNew c
  | .Return, true => priceReturnExisting c
  | .Return, false => priceReturnNew c

/-! ## Writers -/

/-- The loop `for _, passenger := range passengers`: the trip count is read
by `db.GetPassengerTripPrice` from the committed database `db`, the row is
inserted by `tx.Exec` into the working copy `t`.  `i` is the position of the
head of the list in the call's passenger list. -/
def addPassengers (price : Nat → Int) (F : Faults) (db : Store) (clk : Clock) (k : Kind)
    (legID : Nat) : Nat → List String → Store → Except Err Store
  | _, [], t => .ok t
  | i, passenger :: rest, t =>
    match GetPassengerTripPrice (F.tripCount i) db clk passenger with
    | .error e => .error e
    | .ok n =>
      if F.itemInsert i then .error .ErrStore
      else addPassengers price F db clk k legID (i + 1) rest
        (t.setItems k (t.items k ++ [⟨legID, passenger, price n⟩]))

/-- The statements of `SaveDeparture` / `SaveReturn` between `Begin` and
`Commit`, on the working copy of the transaction, which starts as the
committed database `db`. -/
def saveLegTx (c : Constants) (F : Faults) (clk : Clock) (k : Kind) (db : Store)
    (driverName : String) (passengers : List String) : Except Err Store :=
  match queryDriverID F.driverQuery db driverName with
  | .error e => .error e
  | .ok driverID =>
    match queryLegID F.legQuery (db.legs k) driverID clk.today with
    | .ok existingID =>
      -- err == nil: DELETE the line items, UPDATE the timestamp, re-insert
      if F.delete then .error .ErrStore
      else
        let t1 := db.setItems k (deleteItems existingID (db.items k))
        if F.update then .error .ErrStore
        else
          let t2 := t1.setLegs k (touchLeg clk.now existingID (t1.legs k))
          addPassengers (priceSite c k true) F db clk k existingID 0 passengers t2
    | .error _ =>
      -- any error of the lookup: INSERT a new leg
      if F.legInsert then .error .ErrStore
      else
        let t1 := db.setLegs k (insertLeg clk.now driverID (db.legs k))
        -- result.LastInsertId()
        if F.lastInsertId then .error .ErrStore
        else addPassengers (priceSite c k false) F db clk k (nextId (db.legs k)) 0 passengers t1

/-- One call of a writer: `Begin`, `defer tx.Rollback()`, the statements,
`Commit`.  The result is the returned error (or none) and the committed
database after the call. -/
def saveLeg (c : Constants) (F : Faults) (clk : Clock) (k : Kind) (db : Store)
    (driverName : String) (passengers : List String) : Except Err Unit × Store :=
  if F.begin then (.error .ErrStore, db)
  else match saveLegTx c F clk k db driverName passengers with
    | .error e => (.error e, db)
    | .ok t => if F.commit then (.error .ErrStore, db) else (.ok (), t)

/-- Method `SQLiteDB.SaveDeparture`: the writer on `departures` and
`departure_passengers`. -/
def SaveDeparture (c : Constants) (F : Faults) (clk : Clock) (db : Store)
    (driverName : String) (passengers : List String) : Except Err Unit × Store :=
  saveLeg c F clk .Departure db driverName passengers

/-- Method `SQLiteDB.SaveReturn`: the writer on `returns` and `return_passengers`. -/
def SaveReturn (c : Constants) (F : Faults) (clk : Clock) (db : Store)
    (driverName : String) (passengers : List String) : Except Err Unit × Store :=
  saveLeg c F clk .Return db driverName passengers

/-- Method `SQLiteDB.SaveDriver`: `INSERT INTO drivers (name) VALUES (?)`, run on
`db.db` and committed at once. -/
def SaveDriver (fail : Bool) (clk : Clock) (db : Store) (name : String) :
    Except Err Unit × Store :=
  if fail then (.error .ErrStore, db)
  else (.ok (), { db with drivers := db.drivers ++
    [⟨(db.drivers.map (·.id)).foldr max 0 + 1, name, clk.now⟩] })

/-! ## Observations and invariants -/

/-- The fare policy in the words of the specification: the single-trip price
for a passenger without a trip today, the round-trip complement otherwise. -/
def fare (c : Constants) : Nat → Int
  | 0 => c.SingleTripPrice
  | _ + 1 => c.RoundTripPrice - c.SingleTripPrice

/-- The rows of a leg table for one driver id and one calendar date. -/
def legsOf (legs : List LegRow) (driverID : Nat) (day : Int) : List LegRow :=
  legs.filter fun l => l.driver_id == driverID && sqlDate l.created_at == day

/-- The line items of one leg, in table order. -/
def itemsOf (items : List ItemRow) (legID : Nat) : List ItemRow :=
  items.filter fun it => it.leg_id == legID

/-- Schema constraints on a leg table and its line-item table: `id` is a
primary key, and `<leg>_id` references a row of the leg table. -/
def TablesWF (legs : List LegRow) (items : List ItemRow) : Prop :=
  (legs.map (·.id)).Nodup ∧ ∀ it ∈ items, it.leg_id ∈ legs.map (·.id)

instance (legs : List LegRow) (items : List ItemRow) : Decidable (TablesWF legs items) := by
  unfold TablesWF; infer_instance

/-- Schema constraints on the database. -/
def Store.WF (s : Store) : Prop :=
  TablesWF s.departures s.departure_passengers ∧ TablesWF s.returns s.return_passengers

instance (s : Store) : Decidable s.WF := by
  unfold Store.WF; infer_instance

/-- At most one row of a leg table per (driver id, calendar date). -/
def LegUnique (legs : List LegRow) : Prop :=
  ∀ driverID day, (legsOf legs driverID day).length ≤ 1

/-- What a passenger is charged on a day: the prices of the line items that
the trip-count query joins, both kinds added. -/
def faresToday (s : Store) (day : Int) (passengerName : String) : Int :=
  ((joinToday s.departures passengerName day s.departure_passengers).map (·.price)).sum
    + ((joinToday s.returns passengerName day s.return_passengers).map (·.price)).sum

/-- The line items named `passengerName` whose leg is dated `day`. -/
def itemsOnDay (legs : List LegRow) (passengerName : String) (day : Int)
    (items : List ItemRow) : List ItemRow :=
  items.filter fun it => it.passenger_name == passengerName &&
    legs.any fun l => l.id == it.leg_id && sqlDate l.created_at == day

/-- The database that a writer commits after it found today's leg `legID`:
the leg's timestamp is refreshed and its line items are those of the call. -/
def replaced (c : Constants) (clk : Clock) (k : Kind) (db : Store) (legID : Nat)
    (passengers : List String) : Store :=
  (db.setLegs k (touchLeg clk.now legID (db.legs k))).setItems k
    (deleteItems legID (db.items k) ++
      passengers.map fun p => ⟨legID, p, fare c (tripCount db clk p)⟩)

/-- The database that a writer commits after it created a leg. -/
def created (c : Constants) (clk : Clock) (k : Kind) (db : Store) (driverID : Nat)
    (passengers : List String) : Store :=
  (db.setLegs k (insertLeg clk.now driverID (db.legs k))).setItems k
    (db.items k ++
      passengers.map fun p => ⟨nextId (db.legs k), p, fare c (tripCount db clk p)⟩)

/-- Database states reached from the fresh database by a sequential series of
calls, each with its own arguments, clock reading and store failures. -/
inductive Reachable : Store → Prop
  | init : Reachable Store.empty
  | driver (fail : Bool) (clk : Clock) (name : String) {s : Store} :
      Reachable s → Reachable (SaveDriver fail clk s name).2
  | departure (c : Constants) (F : Faults) (clk : Clock) (driverName : String)
      (passengers : List String) {s : Store} :
      Reachable s → Reachable (SaveDeparture c F clk s driverName passengers).2
  | ret (c : Constants) (F : Faults) (clk : Clock) (driverName : String)
      (passengers : List String) {s : Store} :
      Reachable s → Reachable (SaveReturn c F clk s driverName passengers).2

/-- The same, where at every `SaveDeparture` / `SaveReturn` call the local day
of the process is the UTC day of the store and the lookup of today's leg does
not fail. -/
inductive ReachableAligned : Store → Prop
  | init : ReachableAligned Store.empty
  | driver (fail : Bool) (clk : Clock) (name : String) {s : Store} :
      ReachableAligned s → ReachableAligned (SaveDriver fail clk s name).2
  | departure (c : Constants) (F : Faults) (clk : Clock) (driverName : String)
      (passengers : List String) {s : Store} :
      clk.today = sqlDate clk.now → F.legQuery = false →
      ReachableAligned s → ReachableAligned (SaveDeparture c F clk s driverName passengers).2
  | ret (c : Constants) (F : Faults) (clk : Clock) (driverName : String)
      (passengers : List String) {s : Store} :
      clk.today = sqlDate clk.now → F.legQuery = false →
      ReachableAligned s → ReachableAligned (SaveReturn c F clk s driverName passengers).2

/-! ## Example data -/

/-- Prices with a round trip cheaper than two single trips. -/
def exPrices : Constants := ⟨10000, 15000⟩

/-- A clock reading of a process that runs in UTC (2023-11-14 22:13:20). -/
def exClock : Clock := ⟨1700000000, 0⟩

/-- The same instant read by a process in zone UTC+7, where it is already
2023-11-15. -/
def exClockWIB : Clock := ⟨1700000000, 25200⟩

/-- A database with one registered driver and no trip. -/
def exStore : Store := ⟨[⟨1, "Pak Ahmad", 1699990000⟩], [], [], [], []⟩

/-- A database with two registered drivers and no trip. -/
def exStore2 : Store :=
  ⟨[⟨1, "Pak Ahmad", 1699990000⟩, ⟨2, "Pak Budi", 1699990001⟩], [], [], [], []⟩

/-- Store failures of a call whose second line-item insert fails. -/
def exFaults : Faults :=
  ⟨false, false, false, false, false, false, false, fun _ => false, fun i => i == 1, false⟩

/-- Store failures of a call whose lookup of the leg fails. -/
def exFaultsLookup : Faults :=
  ⟨false, false, true, false, false, false, false, fun _ => false, fun _ => false, false⟩

/-- The database after a driver was registered and the same departure was
recorded twice by a process in zone UTC+7 during the first hours of its day. -/
def exTwoLegs : Store :=
  (SaveDeparture exPrices noFaults exClockWIB
    (SaveDeparture exPrices noFaults exClockWIB
      (SaveDriver false exClockWIB Store.empty "Pak Ahmad").2 "Pak Ahmad" ["Ali"]).2
    "Pak Ahmad" ["Ali"]).2

/-! ## Dispatcher

The message loop of `Start` in `internal/infrastructure/bot/telegram.go`, for
one incoming text.  A text is handled as the list of its characters; the byte
of a newline is never part of another character, so splitting characters and
splitting bytes agree.  `strings.ToLower` is taken on the letters `A`-`Z`; no
other character lowers to a letter of `antar` or `jemput`. -/

/-- Run-time failures of an index or slice expression. -/
inductive Panic where
  | indexOutOfRange (index length : Nat)
  | sliceBoundsOutOfRange (low length : Nat)
deriving DecidableEq

/-- What the loop does with one text. -/
inductive Routed where
  | command
  | ProcessDeparture (driverLine : String) (passengerLines : List String)
  | ProcessReturn (driverLine : String) (passengerLines : List String)
  | fallthrough
deriving DecidableEq

/-- Go `strings.Split(s, "\n")` on the characters of `s`: one more piece than
there are newlines. -/
def splitLines : List Char → List (List Char)
  | [] => [[]]
  | c :: cs =>
    if c = '\n' then [] :: splitLines cs
    else match splitLines cs with
      | [] => [[c]]
      | l :: ls => (c :: l) :: ls

/-- Go `strings.Split(messageText, "\n")`. -/
def Split (messageText : String) : List String :=
  (splitLines messageText.data).map String.mk

/-- Go `strings.HasPrefix(strings.ToLower(messageText), word)`. -/
def lowerStartsWith (messageText : String) (word : String) : Bool :=
  word.data.isPrefixOf (messageText.data.map Char.toLower)

/-- The index expression `lines[i]`. -/
def index (lines : List String) (i : Nat) : Except Panic String :=
  match lines[i]? with
  | some line => .ok line
  | none => .error (.indexOutOfRange i lines.length)

/-- The slice expression `lines[low:]`. -/
def sliceFrom (lines : List String) (low : Nat) : Except Panic (List String) :=
  if low ≤ lines.length then .ok (lines.drop low)
  else .error (.sliceBoundsOutOfRange low lines.length)

/-- The cases of the `switch` before `default`: the fixed commands and the
texts that start with `/laporan`. -/
def isCommand (messageText : String) : Bool :=
  messageText == "/ping" || messageText == "/santri" || messageText == "/daftarsantri" ||
  messageText == "/driver" || messageText == "/drivers" || messageText == "/antar" ||
  messageText == "/jemput" || messageText == "/start" || messageText == "/help" ||
  "/laporan".data.isPrefixOf messageText.data

/-- The `default` branch (lines 191-262): the two recording commands; the
later arms of the chain (waiting states, `/backupdb`) are one outcome.  In
the call `ProcessDeparture(lines[1], lines[2:], chatID)` the compiled program
checks the bounds of the slice expression `lines[2:]` before it reads
`lines[1]`; the embedding keeps that order. -/
def dispatchDefault (messageText : String) : Except Panic Routed :=
  if lowerStartsWith messageText "antar" then
    let lines := Split messageText
    match sliceFrom lines 2 with
    | .error e => .error e
    | .ok passengerLines =>
      match index lines 1 with
      | .error e => .error e
      | .ok driverLine => .ok (.ProcessDeparture driverLine passengerLines)
  else if lowerStartsWith messageText "jemput" then
    let lines := Split messageText
    match sliceFrom lines 2 with
    | .error e => .error e
    | .ok passengerLines =>
      match index lines 1 with
      | .error e => .error e
      | .ok driverLine => .ok (.ProcessReturn driverLine passengerLines)
  else .ok .fallthrough

/-- The body of the message loop for one text. -/
def dispatch (messageText : String) : Except Panic Routed :=
  if isCommand messageText then .ok .command else dispatchDefault messageText

/-! ## Table accessors -/

@[simp] theorem legs_setLegs (s : Store) (k : Kind) (ls : List LegRow) :
    (s.setLegs k ls).legs k = ls := by cases k <;> rfl

@[simp] theorem items_setItems (s : Store) (k : Kind) (is : List ItemRow) :
    (s.setItems k is).items k = is := by cases k <;> rfl

@[simp] theorem legs_setItems (s : Store) (k k2 : Kind) (is : List ItemRow) :
    (s.setItems k is).legs k2 = s.legs k2 := by cases k <;> cases k2 <;> rfl

@[simp] theorem items_setLegs (s : Store) (k k2 : Kind) (ls : List LegRow) :
    (s.setLegs k ls).items k2 = s.items k2 := by cases k <;> cases k2 <;> rfl

@[simp] theorem drivers_setLegs (s : Store) (k : Kind) (ls : List LegRow) :
    (s.setLegs k ls).drivers = s.drivers := by cases k <;> rfl

@[simp] theorem drivers_setItems (s : Store) (k : Kind) (is : List ItemRow) :
    (s.setItems k is).drivers = s.drivers := by cases k <;> rfl

@[simp] theorem setItems_setItems (s : Store) (k : Kind) (is js : List ItemRow) :
    (s.setItems k is).setItems k js = s.setItems k js := by cases k <;> rfl

@[simp] theorem setItems_items_self (s : Store) (k : Kind) :
    s.setItems k (s.items k) = s := by cases k <;> rfl

@[simp] theorem setLegs_setItems (s : Store) (k k2 : Kind) (is : List ItemRow)
    (ls : List LegRow) :
    (s.setItems k is).setLegs k2 ls = (s.setLegs k2 ls).setItems k is := by
  cases k <;> cases k2 <;> rfl

theorem legs_setLegs_ne (s : Store) {k k2 : Kind} (h : k ≠ k2) (ls : List LegRow) :
    (s.setLegs k ls).legs k2 = s.legs k2 := by
  cases k <;> cases k2 <;> first | rfl | exact absurd rfl h

theorem items_setItems_ne (s : Store) {k k2 : Kind} (h : k ≠ k2) (is : List ItemRow) :
    (s.setItems k is).items k2 = s.items k2 := by
  cases k <;> cases k2 <;> first | rfl | exact absurd rfl h

theorem Store.ext_tables {s t : Store} (hd : s.drivers = t.drivers)
    (hl : ∀ k, s.legs k = t.legs k) (hi : ∀ k, s.items k = t.items k) : s = t := by
  cases s; cases t
  have h1 := hl .Departure
  have h2 := hl .Return
  have h3 := hi .Departure
  have h4 := hi .Return
  simp only [Store.legs, Store.items] at h1 h2 h3 h4
  simp only at hd
  subst hd h1 h2 h3 h4
  rfl

/-! ## The insert loop -/

/-- A loop that returns no error has appended one row per passenger, in input
order, each priced from the trip count of the committed database. -/
theorem addPassengers_ok (price : Nat → Int) (F : Faults) (db : Store) (clk : Clock) (k : Kind)
    (legID : Nat) (ps : List String) :
    ∀ (i : Nat) (t t2 : Store), addPassengers price F db clk k legID i ps t = .ok t2 →
      t2 = t.setItems k (t.items k ++ ps.map fun p => ⟨legID, p, price (tripCount db clk p)⟩) := by
  induction ps with
  | nil =>
    intro i t t2 h
    simp only [addPassengers, Except.ok.injEq] at h
    subst h
    simp
  | cons p rest ih =>
    intro i t t2 h
    simp only [addPassengers, GetPassengerTripPrice] at h
    split at h
    · simp at h
    · rename_i n hn
      split at hn
      · simp at hn
      · simp only [Except.ok.injEq] at hn
        subst hn
        split at h
        · simp at h
        · have := ih _ _ _ h
          rw [this]
          simp

/-- When the store works the loop returns no error. -/
theorem addPassengers_noFaults (price : Nat → Int) (db : Store) (clk : Clock) (k : Kind)
    (legID : Nat) (ps : List String) :
    ∀ (i : Nat) (t : Store), addPassengers price noFaults db clk k legID i ps t =
      .ok (t.setItems k (t.items k ++ ps.map fun p => ⟨legID, p, price (tripCount db clk p)⟩)) := by
  induction ps with
  | nil =>
    intro i t
    simp [addPassengers]
  | cons p rest ih =>
    intro i t
    simp only [addPassengers, GetPassengerTripPrice, noFaults]
    have := ih (i + 1) (t.setItems k (t.items k ++ [⟨legID, p, price (tripCount db clk p)⟩]))
    simp only [noFaults] at this
    simp [this]

/-! ## One call of a writer -/

theorem priceSite_eq_fare (c : Constants) (k : Kind) (b : Bool) (n : Nat) :
    priceSite c k b n = fare c n := by
  cases k <;> cases b <;> cases n <;>
    simp [priceSite, fare, priceDepartureExisting, priceDepartureNew, priceReturnExisting,
      priceReturnNew]

theorem priceSite_fun (c : Constants) (k : Kind) (b : Bool) : priceSite c k b = fare c :=
  funext (priceSite_eq_fare c k b)

/-- A call that returns an error leaves the committed database as it was. -/
theorem saveLeg_error (c : Constants) (F : Faults) (clk : Clock) (k : Kind) (db : Store)
    (driverName : String) (ps : List String) (e : Err)
    (h : (saveLeg c F clk k db driverName ps).1 = .error e) :
    (saveLeg c F clk k db driverName ps).2 = db := by
  unfold saveLeg at h ⊢
  by_cases hb : F.begin = true
  · simp [hb]
  · simp only [hb] at h ⊢
    cases ht : saveLegTx c F clk k db driverName ps with
    | error e2 => simp
    | ok t =>
      by_cases hc : F.commit = true
      · simp [hc]
      · simp [ht, hc] at h

/-- The two ways a call can return no error. -/
theorem saveLeg_ok_cases (c : Constants) (F : Faults) (clk : Clock) (k : Kind) (db s2 : Store)
    (driverName : String) (ps : List String)
    (h : saveLeg c F clk k db driverName ps = (.ok (), s2)) :
    ∃ d, db.drivers.find? (fun d => d.name == driverName) = some d ∧
      ((∃ l, F.legQuery = false ∧
          (db.legs k).find? (fun l => l.driver_id == d.id && sqlDate l.created_at == clk.today)
            = some l ∧ s2 = replaced c clk k db l.id ps) ∨
       ((F.legQuery = true ∨
          (db.legs k).find? (fun l => l.driver_id == d.id && sqlDate l.created_at == clk.today)
            = none) ∧ s2 = created c clk k db d.id ps)) := by
  unfold saveLeg at h
  split at h
  · simp at h
  split at h
  · simp at h
  rename_i hb t ht
  split at h
  · simp at h
  simp only [Prod.mk.injEq, true_and] at h
  subst h
  unfold saveLegTx at ht
  split at ht
  · simp at ht
  rename_i driverID hdq
  unfold queryDriverID at hdq
  split at hdq
  · simp at hdq
  split at hdq
  · rename_i d hd
    simp only [Except.ok.injEq] at hdq
    subst hdq
    refine ⟨d, hd, ?_⟩
    split at ht
    · rename_i existingID hlq
      unfold queryLegID at hlq
      split at hlq
      · simp at hlq
      rename_i hfl
      split at hlq
      · rename_i l hl
        simp only [Except.ok.injEq] at hlq
        subst hlq
        left
        refine ⟨l, by simpa using hfl, hl, ?_⟩
        split at ht
        · simp at ht
        simp only at ht
        split at ht
        · simp at ht
        have := addPassengers_ok _ _ _ _ _ _ _ _ _ _ ht
        rw [this, priceSite_fun]
        simp [replaced]
      · simp at hlq
    · rename_i e hlq
      right
      constructor
      · unfold queryLegID at hlq
        split at hlq
        · left; assumption
        · split at hlq
          · simp at hlq
          · right; assumption
      · split at ht
        · simp at ht
        simp only at ht
        split at ht
        · simp at ht
        have := addPassengers_ok _ _ _ _ _ _ _ _ _ _ ht
        rw [this, priceSite_fun]
        simp [created]
  · simp at hdq

/-- With a working store, a known driver and a leg of today the call commits
the replacement of that leg. -/
theorem saveLeg_found (c : Constants) (clk : Clock) (k : Kind) (db : Store)
    (driverName : String) (ps : List String) (d : DriverRow) (l : LegRow)
    (hd : db.drivers.find? (fun d => d.name == driverName) = some d)
    (hl : (db.legs k).find? (fun l => l.driver_id == d.id && sqlDate l.created_at == clk.today)
      = some l) :
    saveLeg c noFaults clk k db driverName ps = (.ok (), replaced c clk k db l.id ps) := by
  have h := addPassengers_noFaults (priceSite c k true) db clk k l.id ps 0
    ((db.setItems k (deleteItems l.id (db.items k))).setLegs k
      (touchLeg clk.now l.id (db.legs k)))
  simp only [noFaults, priceSite_fun] at h
  simp [saveLeg, saveLegTx, queryDriverID, queryLegID, noFaults, hd, hl, replaced,
    priceSite_fun]
  simp at h
  rw [h]

/-- With a working store, a known driver and no leg of today the call commits
a new leg. -/
theorem saveLeg_new (c : Constants) (clk : Clock) (k : Kind) (db : Store)
    (driverName : String) (ps : List String) (d : DriverRow)
    (hd : db.drivers.find? (fun d => d.name == driverName) = some d)
    (hl : (db.legs k).find? (fun l => l.driver_id == d.id && sqlDate l.created_at == clk.today)
      = none) :
    saveLeg c noFaults clk k db driverName ps = (.ok (), created c clk k db d.id ps) := by
  have h := addPassengers_noFaults (priceSite c k false) db clk k (nextId (db.legs k)) ps 0
    (db.setLegs k (insertLeg clk.now d.id (db.legs k)))
  simp only [noFaults, priceSite_fun] at h
  simp [saveLeg, saveLegTx, queryDriverID, queryLegID, noFaults, hd, hl, created,
    priceSite_fun]
  simp at h
  rw [h]

/-! ## Schema constraints are kept -/

theorem id_lt_nextId (legs : List LegRow) : ∀ l ∈ legs, l.id < nextId legs := by
  unfold nextId
  induction legs with
  | nil => intro l hl; cases hl
  | cons a rest ih =>
    intro l hl
    simp only [List.map_cons, List.foldr_cons]
    rcases List.mem_cons.mp hl with rfl | hl
    · omega
    · have := ih l hl
      omega

theorem nextId_not_mem (legs : List LegRow) : nextId legs ∉ legs.map (·.id) := by
  intro h
  obtain ⟨l, hl, he⟩ := List.mem_map.mp h
  have := id_lt_nextId legs l hl
  omega

theorem touchLeg_ids (now e : Nat) (legs : List LegRow) :
    (touchLeg now e legs).map (·.id) = legs.map (·.id) := by
  unfold touchLeg
  rw [List.map_map]
  apply List.map_congr_left
  intro l _
  simp only [Function.comp]
  split <;> rfl

theorem insertLeg_ids (now d : Nat) (legs : List LegRow) :
    (insertLeg now d legs).map (·.id) = legs.map (·.id) ++ [nextId legs] := by
  simp [insertLeg]

theorem mem_deleteItems {e : Nat} {items : List ItemRow} {it : ItemRow}
    (h : it ∈ deleteItems e items) : it ∈ items ∧ it.leg_id ≠ e := by
  simpa [deleteItems] using h

theorem TablesWF_replaced (now e : Nat) (legs : List LegRow) (items : List ItemRow)
    (f : String → Int) (ps : List String) (h : TablesWF legs items)
    (he : e ∈ legs.map (·.id)) :
    TablesWF (touchLeg now e legs) (deleteItems e items ++ ps.map fun p => ⟨e, p, f p⟩) := by
  refine ⟨by rw [touchLeg_ids]; exact h.1, ?_⟩
  intro it hit
  rw [touchLeg_ids]
  rcases List.mem_append.mp hit with hit | hit
  · exact h.2 it (mem_deleteItems hit).1
  · obtain ⟨p, -, rfl⟩ := List.mem_map.mp hit
    exact he

theorem TablesWF_created (now d : Nat) (legs : List LegRow) (items : List ItemRow)
    (f : String → Int) (ps : List String) (h : TablesWF legs items) :
    TablesWF (insertLeg now d legs) (items ++ ps.map fun p => ⟨nextId legs, p, f p⟩) := by
  refine ⟨?_, ?_⟩
  · rw [insertLeg_ids]
    refine List.Nodup.append h.1 (List.nodup_singleton _) ?_
    intro x hx hx2
    rw [List.mem_singleton] at hx2
    subst hx2
    exact nextId_not_mem legs hx
  · intro it hit
    rw [insertLeg_ids]
    rcases List.mem_append.mp hit with hit | hit
    · exact List.mem_append_left _ (h.2 it hit)
    · obtain ⟨p, -, rfl⟩ := List.mem_map.mp hit
      simp

theorem WF_tables {s : Store} (h : s.WF) (k : Kind) : TablesWF (s.legs k) (s.items k) := by
  cases k
  · exact h.1
  · exact h.2

theorem WF_of_tables {s : Store} (h : ∀ k, TablesWF (s.legs k) (s.items k)) : s.WF :=
  ⟨h .Departure, h .Return⟩

theorem replaced_legs (c : Constants) (clk : Clock) (k : Kind) (db : Store) (e : Nat)
    (ps : List String) :
    (replaced c clk k db e ps).legs k = touchLeg clk.now e (db.legs k) := by
  simp [replaced]

theorem replaced_items (c : Constants) (clk : Clock) (k : Kind) (db : Store) (e : Nat)
    (ps : List String) :
    (replaced c clk k db e ps).items k =
      deleteItems e (db.items k) ++ ps.map fun p => ⟨e, p, fare c (tripCount db clk p)⟩ := by
  simp [replaced]

theorem replaced_other (c : Constants) (clk : Clock) {k k2 : Kind} (db : Store) (e : Nat)
    (ps : List String) (h : k ≠ k2) :
    (replaced c clk k db e ps).legs k2 = db.legs k2 ∧
    (replaced c clk k db e ps).items k2 = db.items k2 := by
  simp [replaced, legs_setLegs_ne _ h, items_setItems_ne _ h]

theorem replaced_drivers (c : Constants) (clk : Clock) (k : Kind) (db : Store) (e : Nat)
    (ps : List String) : (replaced c clk k db e ps).drivers = db.drivers := by
  simp [replaced]

theorem created_legs (c : Constants) (clk : Clock) (k : Kind) (db : Store) (d : Nat)
    (ps : List String) :
    (created c clk k db d ps).legs k = insertLeg clk.now d (db.legs k) := by
  simp [created]

theorem created_items (c : Constants) (clk : Clock) (k : Kind) (db : Store) (d : Nat)
    (ps : List String) :
    (created c clk k db d ps).items k =
      db.items k ++ ps.map fun p => ⟨nextId (db.legs k), p, fare c (tripCount db clk p)⟩ := by
  simp [created]

theorem created_other (c : Constants) (clk : Clock) {k k2 : Kind} (db : Store) (d : Nat)
    (ps : List String) (h : k ≠ k2) :
    (created c clk k db d ps).legs k2 = db.legs k2 ∧
    (created c clk k db d ps).items k2 = db.items k2 := by
  simp [created, legs_setLegs_ne _ h, items_setItems_ne _ h]

theorem created_drivers (c : Constants) (clk : Clock) (k : Kind) (db : Store) (d : Nat)
    (ps : List String) : (created c clk k db d ps).drivers = db.drivers := by
  simp [created]

theorem WF_replaced (c : Constants) (clk : Clock) (k : Kind) (db : Store) (e : Nat)
    (ps : List String) (h : db.WF) (he : e ∈ (db.legs k).map (·.id)) :
    (replaced c clk k db e ps).WF := by
  apply WF_of_tables
  intro k2
  by_cases hk : k = k2
  · subst hk
    rw [replaced_legs, replaced_items]
    exact TablesWF_replaced _ _ _ _ _ _ (WF_tables h k) he
  · rw [(replaced_other c clk db e ps hk).1, (replaced_other c clk db e ps hk).2]
    exact WF_tables h k2

theorem WF_created (c : Constants) (clk : Clock) (k : Kind) (db : Store) (d : Nat)
    (ps : List String) (h : db.WF) : (created c clk k db d ps).WF := by
  apply WF_of_tables
  intro k2
  by_cases hk : k = k2
  · subst hk
    rw [created_legs, created_items]
    exact TablesWF_created _ _ _ _ _ _ (WF_tables h k)
  · rw [(created_other c clk db d ps hk).1, (created_other c clk db d ps hk).2]
    exact WF_tables h k2

/-- The row that the lookup of today's leg returns is a row of the table, of
that driver and that day. -/
theorem find_leg_some {legs : List LegRow} {d : Nat} {day : Int} {l : LegRow}
    (h : legs.find? (fun l => l.driver_id == d && sqlDate l.created_at == day) = some l) :
    l ∈ legs ∧ l.driver_id = d ∧ sqlDate l.created_at = day := by
  have h1 := List.mem_of_find?_eq_some h
  have h2 := List.find?_some h
  simp only [Bool.and_eq_true, beq_iff_eq] at h2
  exact ⟨h1, h2.1, h2.2⟩

/-! ## Line items of one leg -/

theorem itemsOf_append (xs ys : List ItemRow) (e : Nat) :
    itemsOf (xs ++ ys) e = itemsOf xs e ++ itemsOf ys e := by
  simp [itemsOf]

theorem itemsOf_deleteItems (e : Nat) (items : List ItemRow) :
    itemsOf (deleteItems e items) e = [] := by
  simp only [itemsOf, deleteItems, List.filter_filter, List.filter_eq_nil_iff]
  intro it _
  simp

theorem itemsOf_fresh {legs : List LegRow} {items : List ItemRow} (h : TablesWF legs items) :
    itemsOf items (nextId legs) = [] := by
  simp only [itemsOf, List.filter_eq_nil_iff]
  intro it hit
  have h1 := h.2 it hit
  have h2 := nextId_not_mem legs
  simp only [beq_iff_eq]
  intro he
  rw [he] at h1
  exact h2 h1

theorem itemsOf_new (e : Nat) (f : String → Int) (ps : List String) :
    itemsOf (ps.map fun p => ⟨e, p, f p⟩) e = ps.map fun p => ⟨e, p, f p⟩ := by
  simp only [itemsOf, List.filter_eq_self]
  intro it hit
  obtain ⟨p, -, rfl⟩ := List.mem_map.mp hit
  simp

theorem mem_touchLeg {legs : List LegRow} {l : LegRow} (now : Nat) (h : l ∈ legs) :
    ({ l with created_at := now } : LegRow) ∈ touchLeg now l.id legs := by
  unfold touchLeg
  exact List.mem_map.mpr ⟨l, h, by simp⟩

/-- An empty passenger list is accepted: the call commits a leg of the driver
stamped now, without line items. -/
theorem saveLeg_nil (c : Constants) (clk : Clock) (k : Kind) (db : Store) (driverName : String)
    (d : DriverRow) (hwf : db.WF)
    (hd : db.drivers.find? (fun d => d.name == driverName) = some d) :
    ∃ s2 l, saveLeg c noFaults clk k db driverName [] = (.ok (), s2) ∧ l ∈ s2.legs k ∧
      l.driver_id = d.id ∧ l.created_at = clk.now ∧ itemsOf (s2.items k) l.id = [] := by
  cases hl : (db.legs k).find?
      (fun l => l.driver_id == d.id && sqlDate l.created_at == clk.today) with
  | some l =>
    obtain ⟨hmem, hdr, -⟩ := find_leg_some hl
    refine ⟨_, { l with created_at := clk.now }, saveLeg_found c clk k db driverName [] d l hd hl,
      ?_, hdr, rfl, ?_⟩
    · rw [replaced_legs]; exact mem_touchLeg clk.now hmem
    · rw [replaced_items]
      show itemsOf _ l.id = []
      rw [itemsOf_append, itemsOf_deleteItems]
      rfl
  | none =>
    refine ⟨_, ⟨nextId (db.legs k), d.id, clk.now, 10000⟩,
      saveLeg_new c clk k db driverName [] d hd hl, ?_, rfl, rfl, ?_⟩
    · rw [created_legs]; simp [insertLeg]
    · rw [created_items]
      simp [itemsOf_fresh (WF_tables hwf k)]

/-! ## Legs of one driver on one day -/

theorem eq_of_id_eq {legs : List LegRow} (h : (legs.map (·.id)).Nodup) {a b : LegRow}
    (ha : a ∈ legs) (hb : b ∈ legs) (hab : a.id = b.id) : a = b :=
  List.inj_on_of_nodup_map h ha hb hab

theorem singleton_of_mem_of_length_le {α : Type} {xs : List α} {a : α} (ha : a ∈ xs)
    (hlen : xs.length ≤ 1) : xs = [a] := by
  match xs, ha, hlen with
  | [b], ha, _ => simp only [List.mem_singleton] at ha; rw [ha]
  | _ :: _ :: _, _, hlen => simp at hlen

theorem legsOf_of_find_none {legs : List LegRow} {d : Nat} {day : Int}
    (h : legs.find? (fun l => l.driver_id == d && sqlDate l.created_at == day) = none) :
    legsOf legs d day = [] := by
  rw [List.find?_eq_none] at h
  simpa only [legsOf, List.filter_eq_nil_iff] using h

theorem legsOf_of_find_some {legs : List LegRow} {d : Nat} {day : Int} {l : LegRow}
    (h : legs.find? (fun l => l.driver_id == d && sqlDate l.created_at == day) = some l)
    (hlen : (legsOf legs d day).length ≤ 1) : legsOf legs d day = [l] := by
  have hp := List.find?_some h
  have hm : l ∈ legsOf legs d day := List.mem_filter.mpr ⟨List.mem_of_find?_eq_some h, hp⟩
  exact singleton_of_mem_of_length_le hm hlen

/-- Refreshing the timestamp of a row within its own day moves no row to
another driver or day. -/
theorem legsOf_touchLeg {legs : List LegRow} (hnd : (legs.map (·.id)).Nodup) {l : LegRow}
    (hl : l ∈ legs) {now : Nat} (hday : sqlDate l.created_at = sqlDate now) (d : Nat)
    (day : Int) :
    legsOf (touchLeg now l.id legs) d day = touchLeg now l.id (legsOf legs d day) := by
  unfold legsOf touchLeg
  rw [List.filter_map]
  congr 1
  apply List.filter_congr
  intro a ha
  simp only [Function.comp]
  by_cases hid : a.id = l.id
  · have : a = l := eq_of_id_eq hnd ha hl hid
    subst this
    simp [hday]
  · simp [hid]

theorem legsOf_insertLeg (now dr : Nat) (legs : List LegRow) (d : Nat) (day : Int) :
    legsOf (insertLeg now dr legs) d day = legsOf legs d day ++
      if dr = d ∧ sqlDate now = day then [⟨nextId legs, dr, now, 10000⟩] else [] := by
  unfold legsOf insertLeg
  rw [List.filter_append]
  congr 1
  by_cases h : dr = d ∧ sqlDate now = day
  · simp [h]
  · rw [if_neg h]
    simp only [List.filter_eq_nil_iff, List.mem_singleton]
    intro a ha
    subst ha
    simpa using h

theorem LegUnique_touchLeg {legs : List LegRow} (hnd : (legs.map (·.id)).Nodup) {l : LegRow}
    (hl : l ∈ legs) {now : Nat} (hday : sqlDate l.created_at = sqlDate now)
    (h : LegUnique legs) : LegUnique (touchLeg now l.id legs) := by
  intro d day
  rw [legsOf_touchLeg hnd hl hday]
  simpa [touchLeg] using h d day

theorem LegUnique_insertLeg {legs : List LegRow} {now dr : Nat}
    (hnone : legsOf legs dr (sqlDate now) = []) (h : LegUnique legs) :
    LegUnique (insertLeg now dr legs) := by
  intro d day
  rw [legsOf_insertLeg]
  by_cases hm : dr = d ∧ sqlDate now = day
  · obtain ⟨rfl, rfl⟩ := hm
    simp [hnone]
  · rw [if_neg hm]
    simpa using h d day

/-- The invariant of the trip ledger: the schema constraints, and at most one
leg per driver and day in each leg table. -/
theorem saveLeg_invariant (c : Constants) (F : Faults) (clk : Clock) (k : Kind) (db : Store)
    (driverName : String) (ps : List String) (halign : clk.today = sqlDate clk.now)
    (hq : F.legQuery = false) (hwf : db.WF) (hu : ∀ k2, LegUnique (db.legs k2)) :
    (saveLeg c F clk k db driverName ps).2.WF ∧
    ∀ k2, LegUnique ((saveLeg c F clk k db driverName ps).2.legs k2) := by
  cases hres : (saveLeg c F clk k db driverName ps).1 with
  | error e =>
    rw [saveLeg_error c F clk k db driverName ps e hres]
    exact ⟨hwf, hu⟩
  | ok u =>
    have heq : saveLeg c F clk k db driverName ps
        = (.ok (), (saveLeg c F clk k db driverName ps).2) := by
      rw [← hres]
    obtain ⟨d, -, h | h⟩ := saveLeg_ok_cases c F clk k db _ driverName ps heq
    · obtain ⟨l, -, hl, hs⟩ := h
      obtain ⟨hmem, -, hday⟩ := find_leg_some hl
      rw [hs]
      refine ⟨WF_replaced c clk k db l.id ps hwf (List.mem_map.mpr ⟨l, hmem, rfl⟩), ?_⟩
      intro k2
      by_cases hk : k = k2
      · subst hk
        rw [replaced_legs]
        exact LegUnique_touchLeg (WF_tables hwf k).1 hmem (hday.trans halign) (hu k)
      · rw [(replaced_other c clk db l.id ps hk).1]
        exact hu k2
    · obtain ⟨hnone, hs⟩ := h
      rcases hnone with hf | hnone
      · rw [hq] at hf; cases hf
      rw [hs]
      refine ⟨WF_created c clk k db d.id ps hwf, ?_⟩
      intro k2
      by_cases hk : k = k2
      · subst hk
        rw [created_legs]
        apply LegUnique_insertLeg _ (hu k)
        rw [← halign]
        exact legsOf_of_find_none hnone
      · rw [(created_other c clk db d.id ps hk).1]
        exact hu k2

/-- One call of a writer on an aligned clock with a working store: the driver
has exactly one leg of the day afterwards, and its line items are the names
of the call, in input order. -/
theorem saveLeg_upsert (c : Constants) (clk : Clock) (k : Kind) (db : Store)
    (driverName : String) (ps : List String) (d : DriverRow) (D : Int) (hwf : db.WF)
    (hd : db.drivers.find? (fun d => d.name == driverName) = some d)
    (htoday : clk.today = D) (hnow : sqlDate clk.now = D)
    (hlen : (legsOf (db.legs k) d.id D).length ≤ 1) :
    ∃ s2 l, saveLeg c noFaults clk k db driverName ps = (.ok (), s2) ∧ s2.WF ∧
      s2.drivers = db.drivers ∧ legsOf (s2.legs k) d.id D = [l] ∧
      (itemsOf (s2.items k) l.id).map (·.passenger_name) = ps := by
  subst htoday
  cases hl : (db.legs k).find?
      (fun l => l.driver_id == d.id && sqlDate l.created_at == clk.today) with
  | some l =>
    obtain ⟨hmem, hdr, hday⟩ := find_leg_some hl
    refine ⟨_, { l with created_at := clk.now },
      saveLeg_found c clk k db driverName ps d l hd hl,
      WF_replaced c clk k db l.id ps hwf (List.mem_map.mpr ⟨l, hmem, rfl⟩),
      replaced_drivers c clk k db l.id ps, ?_, ?_⟩
    · rw [replaced_legs, legsOf_touchLeg (WF_tables hwf k).1 hmem (hday.trans hnow.symm),
        legsOf_of_find_some hl hlen]
      simp [touchLeg]
    · rw [replaced_items]
      show List.map _ (itemsOf _ l.id) = ps
      rw [itemsOf_append, itemsOf_deleteItems, itemsOf_new]
      simp [Function.comp_def]
  | none =>
    refine ⟨_, ⟨nextId (db.legs k), d.id, clk.now, 10000⟩,
      saveLeg_new c clk k db driverName ps d hd hl, WF_created c clk k db d.id ps hwf,
      created_drivers c clk k db d.id ps, ?_, ?_⟩
    · rw [created_legs, legsOf_insertLeg, legsOf_of_find_none hl]
      simp [hnow]
    · rw [created_items]
      show List.map _ (itemsOf _ (nextId (db.legs k))) = ps
      rw [itemsOf_append, itemsOf_fresh (WF_tables hwf k), itemsOf_new]
      simp [Function.comp_def]

/-- A series of calls of one writer for one driver on one day: exactly one
leg of the day is left, with the line items of the last call. -/
theorem saveLeg_upsert_series (c : Constants) (k : Kind) (driverName : String) (d : DriverRow)
    (D : Int) (last : Clock × List String) :
    ∀ (earlier : List (Clock × List String)) (db : Store), db.WF →
      db.drivers.find? (fun d => d.name == driverName) = some d →
      (∀ call ∈ earlier ++ [last], call.1.today = D ∧ sqlDate call.1.now = D) →
      (legsOf (db.legs k) d.id D).length ≤ 1 →
      ∃ l, legsOf (((earlier ++ [last]).foldl
          (fun s call => (saveLeg c noFaults call.1 k s driverName call.2).2) db).legs k) d.id D
            = [l] ∧
        (itemsOf (((earlier ++ [last]).foldl
          (fun s call => (saveLeg c noFaults call.1 k s driverName call.2).2) db).items k)
            l.id).map (·.passenger_name) = last.2 := by
  intro earlier
  induction earlier with
  | nil =>
    intro db hwf hd hday hlen
    obtain ⟨h1, h2⟩ := hday last (by simp)
    obtain ⟨s2, l, hs, -, -, hlegs, hitems⟩ :=
      saveLeg_upsert c last.1 k db driverName last.2 d D hwf hd h1 h2 hlen
    refine ⟨l, ?_, ?_⟩
    · simpa [hs] using hlegs
    · simpa [hs] using hitems
  | cons call rest ih =>
    intro db hwf hd hday hlen
    obtain ⟨h1, h2⟩ := hday call (by simp)
    obtain ⟨s2, l, hs, hwf2, hdrv, hlegs, -⟩ :=
      saveLeg_upsert c call.1 k db driverName call.2 d D hwf hd h1 h2 hlen
    have := ih s2 hwf2 (by rw [hdrv]; exact hd)
      (fun x hx => hday x (by simp only [List.cons_append, List.mem_cons]; exact Or.inr hx))
      (by rw [hlegs]; simp)
    simpa [hs] using this

theorem reachableAligned_invariant {s : Store} (h : ReachableAligned s) :
    s.WF ∧ ∀ k, LegUnique (s.legs k) := by
  induction h with
  | init =>
    refine ⟨by decide, ?_⟩
    intro k d day
    cases k <;> simp [Store.legs, Store.empty, legsOf]
  | driver fail clk name _ ih =>
    unfold SaveDriver
    split
    · exact ih
    · exact ih
  | departure c F clk driverName ps halign hq _ ih =>
    exact saveLeg_invariant c F clk .Departure _ driverName ps halign hq ih.1 ih.2
  | ret c F clk driverName ps halign hq _ ih =>
    exact saveLeg_invariant c F clk .Return _ driverName ps halign hq ih.1 ih.2

/-! ## The trip-count join -/

theorem joinToday_append (legs : List LegRow) (n : String) (day : Int)
    (xs ys : List ItemRow) :
    joinToday legs n day (xs ++ ys) = joinToday legs n day xs ++ joinToday legs n day ys := by
  induction xs with
  | nil => rfl
  | cons it rest ih => simp [joinToday, ih]

/-- The join depends on the leg table only through the number of leg rows
that each line item meets. -/
theorem joinToday_congr {legs legs2 : List LegRow} (n : String) (day : Int)
    (items : List ItemRow)
    (h : ∀ it ∈ items,
      (legs.filter fun l =>
        l.id == it.leg_id && it.passenger_name == n && sqlDate l.created_at == day).length =
      (legs2.filter fun l =>
        l.id == it.leg_id && it.passenger_name == n && sqlDate l.created_at == day).length) :
    joinToday legs n day items = joinToday legs2 n day items := by
  induction items with
  | nil => rfl
  | cons it rest ih =>
    simp only [joinToday, List.map_const']
    rw [h it (List.mem_cons_self _ _), ih fun x hx => h x (List.mem_cons_of_mem _ hx)]

theorem joinToday_touchLeg (now e : Nat) (legs : List LegRow) (n : String) (day : Int)
    (items : List ItemRow) (h : ∀ it ∈ items, it.leg_id ≠ e) :
    joinToday (touchLeg now e legs) n day items = joinToday legs n day items := by
  apply joinToday_congr
  intro it hit
  unfold touchLeg
  rw [List.filter_map, List.length_map]
  congr 1
  apply List.filter_congr
  intro a _
  simp only [Function.comp]
  by_cases hid : a.id = e
  · have hf : (e == it.leg_id) = false := by
      simpa using Ne.symm (h it hit)
    simp [hid, hf]
  · simp [hid]

theorem joinToday_insertLeg (now dr : Nat) (legs : List LegRow) (n : String) (day : Int)
    (items : List ItemRow) (h : ∀ it ∈ items, it.leg_id ≠ nextId legs) :
    joinToday (insertLeg now dr legs) n day items = joinToday legs n day items := by
  apply joinToday_congr
  intro it hit
  unfold insertLeg
  rw [List.filter_append]
  have : ([⟨nextId legs, dr, now, 10000⟩] : List LegRow).filter (fun l =>
      l.id == it.leg_id && it.passenger_name == n && sqlDate l.created_at == day) = [] := by
    simp only [List.filter_eq_nil_iff, List.mem_singleton]
    intro a ha
    subst ha
    simp [Ne.symm (h it hit)]
  rw [this]
  simp

/-- The rows just written for a leg that is the only row with its id and is
dated `day` join once each. -/
theorem joinToday_new {legs : List LegRow} {e : Nat} {day : Int} {l0 : LegRow}
    (h : (legs.filter fun l => l.id == e && sqlDate l.created_at == day) = [l0])
    (n : String) (f : String → Int) (ps : List String) :
    joinToday legs n day (ps.map fun p => ⟨e, p, f p⟩)
      = (ps.filter (· == n)).map fun p => ⟨e, p, f p⟩ := by
  induction ps with
  | nil => rfl
  | cons p rest ih =>
    simp only [List.map_cons, joinToday, ih]
    by_cases hp : p = n
    · subst hp
      simp [h]
    · have : (legs.filter fun l => l.id == e && p == n && sqlDate l.created_at == day)
          = [] := by
        simp only [List.filter_eq_nil_iff]
        intro a _
        simp [hp]
      simp [this, hp]

theorem joinToday_deleteItems_nil {legs : List LegRow} {n : String} {day : Int}
    {items : List ItemRow} (e : Nat) (h : joinToday legs n day items = []) :
    joinToday legs n day (deleteItems e items) = [] := by
  induction items with
  | nil => rfl
  | cons it rest ih =>
    simp only [joinToday, List.append_eq_nil] at h
    unfold deleteItems
    rw [List.filter_cons]
    split
    · simp only [joinToday, List.append_eq_nil]
      exact ⟨h.1, ih h.2⟩
    · exact ih h.2

theorem filter_id_touchLeg {now : Nat} {l : LegRow} :
    ∀ {legs : List LegRow}, (legs.map (·.id)).Nodup → l ∈ legs →
      ((touchLeg now l.id legs).filter fun a =>
        a.id == l.id && sqlDate a.created_at == sqlDate now) = [{ l with created_at := now }] := by
  intro legs
  induction legs with
  | nil => intro _ hl; cases hl
  | cons a rest ih =>
    intro hnd hl
    simp only [List.map_cons, List.nodup_cons] at hnd
    rcases List.mem_cons.mp hl with rfl | hl
    · have hrest : ((touchLeg now l.id rest).filter fun a =>
          a.id == l.id && sqlDate a.created_at == sqlDate now) = [] := by
        simp only [List.filter_eq_nil_iff]
        intro b hb
        have hb2 : b.id ∈ (touchLeg now l.id rest).map (·.id) := List.mem_map.mpr ⟨b, hb, rfl⟩
        rw [touchLeg_ids] at hb2
        have : b.id ≠ l.id := fun h => hnd.1 (h ▸ hb2)
        simp [this]
      have hcons : touchLeg now l.id (l :: rest)
          = { l with created_at := now } :: touchLeg now l.id rest := by
        simp [touchLeg]
      rw [hcons, List.filter_cons, hrest]
      simp
    · have hne : a.id ≠ l.id := fun h => hnd.1 (h ▸ List.mem_map.mpr ⟨l, hl, rfl⟩)
      have hcons : touchLeg now l.id (a :: rest) = a :: touchLeg now l.id rest := by
        simp [touchLeg, hne]
      have hf : (a.id == l.id) = false := by simpa using hne
      rw [hcons, List.filter_cons]
      simp only [hf, Bool.false_and, Bool.false_eq_true, ↓reduceIte]
      exact ih hnd.2 hl

theorem filter_id_insertLeg (now dr : Nat) (legs : List LegRow) :
    ((insertLeg now dr legs).filter fun a =>
      a.id == nextId legs && sqlDate a.created_at == sqlDate now)
        = [⟨nextId legs, dr, now, 10000⟩] := by
  unfold insertLeg
  rw [List.filter_append]
  have : (legs.filter fun a => a.id == nextId legs && sqlDate a.created_at == sqlDate now)
      = [] := by
    simp only [List.filter_eq_nil_iff]
    intro a ha
    have := id_lt_nextId legs a ha
    have hne : a.id ≠ nextId legs := by omega
    simp [hne]
  rw [this]
  simp

theorem filter_id_length_le_one (q : LegRow → Bool) (x : Nat) :
    ∀ {legs : List LegRow}, (legs.map (·.id)).Nodup →
      (legs.filter fun l => l.id == x && q l).length ≤ 1 := by
  intro legs
  induction legs with
  | nil => intro _; simp
  | cons a rest ih =>
    intro hnd
    simp only [List.map_cons, List.nodup_cons] at hnd
    rw [List.filter_cons]
    split
    · rename_i hm
      simp only [Bool.and_eq_true, beq_iff_eq] at hm
      have hrest : (rest.filter fun l => l.id == x && q l) = [] := by
        simp only [List.filter_eq_nil_iff]
        intro b hb
        have : b.id ≠ x := fun h =>
          hnd.1 (hm.1 ▸ h ▸ List.mem_map.mpr ⟨b, hb, rfl⟩)
        simp [this]
      simp [hrest]
    · exact ih hnd.2

/-- Under the primary-key constraint the join counts line items: each line
item named `n` whose leg is dated `day` contributes one row. -/
theorem joinToday_length {legs : List LegRow} (hnd : (legs.map (·.id)).Nodup) (n : String)
    (day : Int) (items : List ItemRow) :
    (joinToday legs n day items).length = (itemsOnDay legs n day items).length := by
  induction items with
  | nil => rfl
  | cons it rest ih =>
    have ih2 : (joinToday legs n day rest).length
        = (List.filter (fun it => it.passenger_name == n &&
            legs.any fun l => l.id == it.leg_id && sqlDate l.created_at == day) rest).length := ih
    simp only [joinToday, itemsOnDay, List.length_append, List.length_map, List.filter_cons, ih2]
    by_cases hn : it.passenger_name = n
    · have hP : (legs.filter fun l =>
          l.id == it.leg_id && it.passenger_name == n && sqlDate l.created_at == day)
          = legs.filter fun l => l.id == it.leg_id && sqlDate l.created_at == day := by
        apply List.filter_congr
        intro a _
        simp [hn]
      rw [hP]
      by_cases hany : (legs.any fun l => l.id == it.leg_id && sqlDate l.created_at == day) = true
      · have hle : (legs.filter fun l =>
            l.id == it.leg_id && sqlDate l.created_at == day).length ≤ 1 :=
          filter_id_length_le_one (fun l => sqlDate l.created_at == day) it.leg_id hnd
        obtain ⟨a, ha, hpa⟩ := List.any_eq_true.mp hany
        have hmem : a ∈ legs.filter fun l => l.id == it.leg_id && sqlDate l.created_at == day :=
          List.mem_filter.mpr ⟨ha, hpa⟩
        have hpos := List.length_pos_of_mem hmem
        have hone : (legs.filter fun l =>
            l.id == it.leg_id && sqlDate l.created_at == day).length = 1 := by omega
        simp [hn, hany, hone]
        omega
      · have hnil : (legs.filter fun l => l.id == it.leg_id && sqlDate l.created_at == day)
            = [] := by
          simp only [List.filter_eq_nil_iff]
          intro a ha hpa
          exact hany (List.any_eq_true.mpr ⟨a, ha, hpa⟩)
        simp only [Bool.not_eq_true] at hany
        simp [hn, hany, hnil]
    · have hnil : (legs.filter fun l =>
          l.id == it.leg_id && it.passenger_name == n && sqlDate l.created_at == day) = [] := by
        simp only [List.filter_eq_nil_iff]
        intro a _
        simp [hn]
      simp [hn, hnil]

theorem tripCount_eq_itemsOnDay {s : Store} (h : s.WF) (clk : Clock) (p : String) :
    tripCount s clk p
      = (itemsOnDay s.departures p (sqlDate clk.now) s.departure_passengers).length
        + (itemsOnDay s.returns p (sqlDate clk.now) s.return_passengers).length := by
  unfold tripCount
  rw [joinToday_length h.1.1, joinToday_length h.2.1]

/-- The join of the written kind after a call with a working store, for a
passenger who had no line item of that kind today. -/
theorem saveLeg_trip (c : Constants) (clk : Clock) (k : Kind) (db : Store)
    (driverName : String) (ps : List String) (d : DriverRow) (n : String) (hwf : db.WF)
    (hd : db.drivers.find? (fun d => d.name == driverName) = some d)
    (h0 : joinToday (db.legs k) n (sqlDate clk.now) (db.items k) = []) :
    ∃ s2 legID kept, saveLeg c noFaults clk k db driverName ps = (.ok (), s2) ∧ s2.WF ∧
      s2.drivers = db.drivers ∧
      (∀ k2, k ≠ k2 → s2.legs k2 = db.legs k2 ∧ s2.items k2 = db.items k2) ∧
      s2.items k = kept ++ ps.map (fun p => ⟨legID, p, fare c (tripCount db clk p)⟩) ∧
      joinToday (s2.legs k) n (sqlDate clk.now) (s2.items k)
        = (ps.filter (· == n)).map (fun p => ⟨legID, p, fare c (tripCount db clk p)⟩) := by
  cases hl : (db.legs k).find?
      (fun l => l.driver_id == d.id && sqlDate l.created_at == clk.today) with
  | some l =>
    obtain ⟨hmem, -, -⟩ := find_leg_some hl
    refine ⟨_, l.id, deleteItems l.id (db.items k),
      saveLeg_found c clk k db driverName ps d l hd hl,
      WF_replaced c clk k db l.id ps hwf (List.mem_map.mpr ⟨l, hmem, rfl⟩),
      replaced_drivers c clk k db l.id ps,
      fun k2 hk => replaced_other c clk db l.id ps hk, replaced_items c clk k db l.id ps, ?_⟩
    rw [replaced_legs, replaced_items, joinToday_append,
      joinToday_touchLeg _ _ _ _ _ _ (fun it hit => (mem_deleteItems hit).2),
      joinToday_deleteItems_nil l.id h0,
      joinToday_new (filter_id_touchLeg (WF_tables hwf k).1 hmem)]
    rfl
  | none =>
    refine ⟨_, nextId (db.legs k), db.items k,
      saveLeg_new c clk k db driverName ps d hd hl, WF_created c clk k db d.id ps hwf,
      created_drivers c clk k db d.id ps,
      fun k2 hk => created_other c clk db d.id ps hk, created_items c clk k db d.id ps, ?_⟩
    have hfresh : ∀ it ∈ db.items k, it.leg_id ≠ nextId (db.legs k) := by
      intro it hit he
      have h1 := (WF_tables hwf k).2 it hit
      rw [he] at h1
      exact nextId_not_mem _ h1
    rw [created_legs, created_items, joinToday_append,
      joinToday_insertLeg _ _ _ _ _ _ hfresh, h0,
      joinToday_new (filter_id_insertLeg clk.now d.id (db.legs k))]
    rfl

/-- A departure and then a return of one passenger on one UTC day, with any
two registered drivers: the first leg is priced from trip count `0`, the
second from trip count `1`. -/
theorem depart_then_return (c : Constants) (db : Store) (a b : String) (da dbr : DriverRow)
    (p : String) (clk1 clk2 : Clock) (hwf : db.WF)
    (ha : db.drivers.find? (fun d => d.name == a) = some da)
    (hb : db.drivers.find? (fun d => d.name == b) = some dbr)
    (hsame : sqlDate clk2.now = sqlDate clk1.now) (h0 : tripCount db clk1 p = 0) :
    ∃ s1 s2 id1 id2 kept1 kept2,
      saveLeg c noFaults clk1 .Departure db a [p] = (.ok (), s1) ∧
      saveLeg c noFaults clk2 .Return s1 b [p] = (.ok (), s2) ∧
      s1.departure_passengers = kept1 ++ [⟨id1, p, c.SingleTripPrice⟩] ∧
      s2.departure_passengers = s1.departure_passengers ∧
      s2.return_passengers = kept2 ++ [⟨id2, p, c.RoundTripPrice - c.SingleTripPrice⟩] ∧
      tripCount s1 clk2 p = 1 ∧
      faresToday s2 (sqlDate clk2.now) p = c.RoundTripPrice := by
  have h0' := h0
  unfold tripCount at h0'
  have hdep0 : joinToday db.departures p (sqlDate clk1.now) db.departure_passengers = [] :=
    List.length_eq_zero.mp (by omega)
  have hret0 : joinToday db.returns p (sqlDate clk1.now) db.return_passengers = [] :=
    List.length_eq_zero.mp (by omega)
  obtain ⟨s1, id1, kept1, hs1, hwf1, hdrv1, hoth1, hitems1, hjoin1⟩ :=
    saveLeg_trip c clk1 .Departure db a [p] da p hwf ha hdep0
  simp only [Store.items, Store.legs, List.map_cons, List.map_nil, List.filter_cons,
    beq_self_eq_true, if_true, List.filter_nil, h0, fare] at hitems1 hjoin1
  obtain ⟨hl1, hi1⟩ := hoth1 .Return (by decide)
  simp only [Store.items, Store.legs] at hl1 hi1
  have hcount : tripCount s1 clk2 p = 1 := by
    unfold tripCount
    rw [hsame, hjoin1, hl1, hi1, hret0]
    rfl
  have hret1 : joinToday (s1.legs .Return) p (sqlDate clk2.now) (s1.items .Return) = [] := by
    show joinToday s1.returns p _ s1.return_passengers = []
    rw [hsame, hl1, hi1, hret0]
  obtain ⟨s2, id2, kept2, hs2, -, -, hoth2, hitems2, hjoin2⟩ :=
    saveLeg_trip c clk2 .Return s1 b [p] dbr p hwf1 (by rw [hdrv1]; exact hb) hret1
  simp only [Store.items, Store.legs, List.map_cons, List.map_nil, List.filter_cons,
    beq_self_eq_true, if_true, List.filter_nil, hcount, fare] at hitems2 hjoin2
  obtain ⟨hl2, hi2⟩ := hoth2 .Departure (by decide)
  simp only [Store.items, Store.legs] at hl2 hi2
  refine ⟨s1, s2, id1, id2, kept1, kept2, hs1, hs2, hitems1, hi2, hitems2, hcount, ?_⟩
  unfold faresToday
  rw [hjoin2, hl2, hi2, hsame, hjoin1]
  simp

/-! ## Splitting a message into lines -/

theorem splitLines_length (s : List Char) :
    (splitLines s).length = s.count '\n' + 1 := by
  induction s with
  | nil => rfl
  | cons c cs ih =>
    by_cases hc : c = '\n'
    · subst hc
      simp [splitLines, ih]
    · have hc2 : ¬ ('\n' = c) := fun h => hc h.symm
      have hcount : (c :: cs).count '\n' = cs.count '\n' := by
        rw [List.count_cons]
        simp [hc]
      rw [hcount, ← ih]
      simp only [splitLines, if_neg hc]
      cases hsp : splitLines cs with
      | nil => rw [hsp] at ih; simp at ih
      | cons l ls => simp

theorem Split_length (messageText : String) :
    (Split messageText).length = messageText.data.count '\n' + 1 := by
  simp [Split, splitLines_length]

theorem index_one_of_two_le {lines : List String} (h : 2 ≤ lines.length) :
    ∃ line, index lines 1 = .ok line := by
  match lines, h with
  | _ :: line :: _, _ => exact ⟨line, by simp [index]⟩

theorem sliceFrom_two_of_length_one {lines : List String} (h : lines.length = 1) :
    sliceFrom lines 2 = .error (.sliceBoundsOutOfRange 2 1) := by
  simp [sliceFrom, h]

theorem sliceFrom_two_of_two_le {lines : List String} (h : 2 ≤ lines.length) :
    sliceFrom lines 2 = .ok (lines.drop 2) := by
  simp [sliceFrom, h]

/-- The two recording arms of the `default` branch, for a text with a
newline: both expressions are in bounds. -/
theorem dispatchDefault_newline (messageText : String) (h : '\n' ∈ messageText.data) :
    (lowerStartsWith messageText "antar" = true →
      ∃ driverLine, dispatchDefault messageText
        = .ok (.ProcessDeparture driverLine ((Split messageText).drop 2))) ∧
    (lowerStartsWith messageText "antar" = false →
      lowerStartsWith messageText "jemput" = true →
      ∃ driverLine, dispatchDefault messageText
        = .ok (.ProcessReturn driverLine ((Split messageText).drop 2))) := by
  have hlen : 2 ≤ (Split messageText).length := by
    rw [Split_length]
    have := List.count_pos_iff.mpr h
    omega
  obtain ⟨line, hline⟩ := index_one_of_two_le hlen
  have hslice := sliceFrom_two_of_two_le hlen
  constructor
  · intro hg
    exact ⟨line, by simp [dispatchDefault, hg, hline, hslice]⟩
  · intro hg1 hg2
    exact ⟨line, by simp [dispatchDefault, hg1, hg2, hline, hslice]⟩

/-- The two recording arms of the `default` branch, for a text without a
newline: the slice `lines[2:]` of the single line is out of bounds. -/
theorem dispatchDefault_one_line (messageText : String) (h : '\n' ∉ messageText.data)
    (hg : lowerStartsWith messageText "antar" = true ∨
      lowerStartsWith messageText "jemput" = true) :
    dispatchDefault messageText = .error (.sliceBoundsOutOfRange 2 1) := by
  have hlen : (Split messageText).length = 1 := by
    rw [Split_length, List.count_eq_zero.mpr h]
  have hidx := sliceFrom_two_of_length_one hlen
  by_cases hg1 : lowerStartsWith messageText "antar" = true
  · simp [dispatchDefault, hg1, hidx]
  · have hg2 : lowerStartsWith messageText "jemput" = true := by
      rcases hg with hg | hg
      · exact absurd hg hg1
      · exact hg
    simp only [Bool.not_eq_true] at hg1
    simp [dispatchDefault, hg1, hg2, hidx]

/-- A text whose lower-cased form starts with `antar` or `jemput` is none of
the commands: it reaches the `default` branch. -/
theorem isCommand_of_recording (messageText : String)
    (hg : lowerStartsWith messageText "antar" = true ∨
      lowerStartsWith messageText "jemput" = true) :
    isCommand messageText = false := by
  have hslash : ∀ cs : List Char, lowerStartsWith ⟨'/' :: cs⟩ "antar" = false ∧
      lowerStartsWith ⟨'/' :: cs⟩ "jemput" = false := by
    intro cs
    constructor <;> rfl
  have hno : ∀ t : String, (lowerStartsWith t "antar" = false ∧
      lowerStartsWith t "jemput" = false) → t ≠ messageText := by
    intro t ht heq
    subst heq
    rcases hg with hg | hg
    · rw [ht.1] at hg; cases hg
    · rw [ht.2] at hg; cases hg
  cases hc : isCommand messageText with
  | false => rfl
  | true =>
    exfalso
    simp only [isCommand, Bool.or_eq_true, beq_iff_eq] at hc
    rcases hc with ((((((((h | h) | h) | h) | h) | h) | h) | h) | h) | h
    · exact hno "/ping" ⟨rfl, rfl⟩ h.symm
    · exact hno "/santri" ⟨rfl, rfl⟩ h.symm
    · exact hno "/daftarsantri" ⟨rfl, rfl⟩ h.symm
    · exact hno "/driver" ⟨rfl, rfl⟩ h.symm
    · exact hno "/drivers" ⟨rfl, rfl⟩ h.symm
    · exact hno "/antar" ⟨rfl, rfl⟩ h.symm
    · exact hno "/jemput" ⟨rfl, rfl⟩ h.symm
    · exact hno "/start" ⟨rfl, rfl⟩ h.symm
    · exact hno "/help" ⟨rfl, rfl⟩ h.symm
    · obtain ⟨data⟩ := messageText
      cases data with
      | nil => simp [List.isPrefixOf] at h
      | cons c cs =>
        have hc2 : c = '/' := by
          have h2 : ('/' == c) = true := by
            have h3 : (("/laporan".data).isPrefixOf (c :: cs)) = true := h
            simp only [show "/laporan".data = '/' :: "laporan".data from rfl,
              List.isPrefixOf, Bool.and_eq_true] at h3
            exact h3.1
          exact (beq_iff_eq.mp h2).symm
        subst hc2
        exact hno ⟨'/' :: cs⟩ (hslash cs) rfl

theorem dispatch_recording (messageText : String)
    (hg : lowerStartsWith messageText "antar" = true ∨
      lowerStartsWith messageText "jemput" = true) :
    dispatch messageText = dispatchDefault messageText := by
  simp [dispatch, isCommand_of_recording messageText hg]

/-! ## Claims on a single call -/

/-- C1: at each of the four pricing sites (leg found or created, departure or
return) the price for trip count `0` is `SingleTripPrice` and the price for a
trip count `n + 1` is `RoundTripPrice - SingleTripPrice`; and every call of
`SaveDeparture` or `SaveReturn` that returns no error has written, after the
rows it kept, one row per passenger priced by that rule from the passenger's
trip count. -/
theorem C1_fare_rule (c : Constants) (n : Nat) :
    (∀ site ∈ [priceDepartureExisting c, priceDepartureNew c, priceReturnExisting c,
        priceReturnNew c],
      site 0 = c.SingleTripPrice ∧ site (n + 1) = c.RoundTripPrice - c.SingleTripPrice) ∧
    (∀ (F : Faults) (clk : Clock) (db s2 : Store) (driverName : String) (ps : List String),
      SaveDeparture c F clk db driverName ps = (.ok (), s2) →
      ∃ legID kept, s2.departure_passengers = kept ++ ps.map fun p =>
        ⟨legID, p, if tripCount db clk p = 0 then c.SingleTripPrice
          else c.RoundTripPrice - c.SingleTripPrice⟩) ∧
    (∀ (F : Faults) (clk : Clock) (db s2 : Store) (driverName : String) (ps : List String),
      SaveReturn c F clk db driverName ps = (.ok (), s2) →
      ∃ legID kept, s2.return_passengers = kept ++ ps.map fun p =>
        ⟨legID, p, if tripCount db clk p = 0 then c.SingleTripPrice
          else c.RoundTripPrice - c.SingleTripPrice⟩) := by
  have hfare : ∀ m, fare c m =
      if m = 0 then c.SingleTripPrice else c.RoundTripPrice - c.SingleTripPrice := by
    intro m; cases m <;> simp [fare]
  have key : ∀ (k : Kind) (F : Faults) (clk : Clock) (db s2 : Store) (driverName : String)
      (ps : List String), saveLeg c F clk k db driverName ps = (.ok (), s2) →
      ∃ legID kept, s2.items k = kept ++ ps.map fun p =>
        ⟨legID, p, if tripCount db clk p = 0 then c.SingleTripPrice
          else c.RoundTripPrice - c.SingleTripPrice⟩ := by
    intro k F clk db s2 driverName ps h
    obtain ⟨d, -, h | h⟩ := saveLeg_ok_cases c F clk k db s2 driverName ps h
    · obtain ⟨l, -, -, rfl⟩ := h
      exact ⟨l.id, deleteItems l.id (db.items k), by simp [replaced, hfare]⟩
    · obtain ⟨-, rfl⟩ := h
      exact ⟨nextId (db.legs k), db.items k, by simp [created, hfare]⟩
  refine ⟨?_, ?_, ?_⟩
  · intro site hs
    simp only [List.mem_cons, List.mem_singleton, List.not_mem_nil, or_false] at hs
    rcases hs with rfl | rfl | rfl | rfl <;>
      simp [priceDepartureExisting, priceDepartureNew, priceReturnExisting, priceReturnNew]
  · intro F clk db s2 driverName ps h
    exact key .Departure F clk db s2 driverName ps h
  · intro F clk db s2 driverName ps h
    exact key .Return F clk db s2 driverName ps h

/-- C1, at a concrete call: recording two passengers for a registered driver
returns no error and writes the two rows priced by the rule. -/
theorem C1_fare_rule_witness :
    ∃ legID kept, (SaveDeparture exPrices noFaults exClock exStore "Pak Ahmad"
        ["Santri Ali", "Santri Umar"]).2.departure_passengers
      = kept ++ ["Santri Ali", "Santri Umar"].map fun p =>
        ⟨legID, p, if tripCount exStore exClock p = 0 then exPrices.SingleTripPrice
          else exPrices.RoundTripPrice - exPrices.SingleTripPrice⟩ :=
  (C1_fare_rule exPrices 0).2.1 noFaults exClock exStore _ "Pak Ahmad"
    ["Santri Ali", "Santri Umar"] rfl

/-- C4: when no row of `drivers` has the given name, `SaveDeparture` and
`SaveReturn` return an error for every passenger list, whatever else fails,
and the committed database is the one before the call. -/
theorem C4_unknown_driver (c : Constants) (F : Faults) (clk : Clock) (db : Store)
    (driverName : String) (ps : List String)
    (h : ∀ d ∈ db.drivers, d.name ≠ driverName) :
    (∃ e, SaveDeparture c F clk db driverName ps = (.error e, db)) ∧
    (∃ e, SaveReturn c F clk db driverName ps = (.error e, db)) := by
  have hfind : db.drivers.find? (fun d => d.name == driverName) = none := by
    rw [List.find?_eq_none]
    intro d hd
    simpa using h d hd
  have key : ∀ k, ∃ e, saveLeg c F clk k db driverName ps = (.error e, db) := by
    intro k
    unfold saveLeg
    by_cases hb : F.begin = true
    · exact ⟨.ErrStore, by simp [hb]⟩
    · by_cases hq : F.driverQuery = true
      · exact ⟨.ErrStore, by simp [hb, saveLegTx, queryDriverID, hq]⟩
      · exact ⟨.ErrNoRows, by simp [hb, saveLegTx, queryDriverID, hq, hfind]⟩
  exact ⟨key .Departure, key .Return⟩

/-- C4, at a concrete call: a name that is not registered. -/
theorem C4_unknown_driver_witness :
    (∃ e, SaveDeparture exPrices noFaults exClock exStore "NoSuchDriver" ["Ali"]
      = (.error e, exStore)) ∧
    (∃ e, SaveReturn exPrices noFaults exClock exStore "NoSuchDriver" ["Ali"]
      = (.error e, exStore)) :=
  C4_unknown_driver exPrices noFaults exClock exStore "NoSuchDriver" ["Ali"] (by decide)

/-- C7: whichever statement fails (begin, driver lookup, delete, timestamp
update, leg insert, trip-count query, line-item insert, commit), a call of
`SaveDeparture` or `SaveReturn` that returns an error leaves the committed
database identical to the one before the call. -/
theorem C7_atomicity (c : Constants) (F : Faults) (clk : Clock) (db : Store)
    (driverName : String) (ps : List String) (e : Err) :
    ((SaveDeparture c F clk db driverName ps).1 = .error e →
      (SaveDeparture c F clk db driverName ps).2 = db) ∧
    ((SaveReturn c F clk db driverName ps).1 = .error e →
      (SaveReturn c F clk db driverName ps).2 = db) :=
  ⟨saveLeg_error c F clk .Departure db driverName ps e,
   saveLeg_error c F clk .Return db driverName ps e⟩

/-- C7, at a concrete call: the insert of the second line item fails after
the leg and the first line item were written in the transaction. -/
theorem C7_atomicity_witness :
    (SaveDeparture exPrices exFaults exClock exStore "Pak Ahmad" ["Ali", "Umar"]).1
      = .error .ErrStore ∧
    (SaveDeparture exPrices exFaults exClock exStore "Pak Ahmad" ["Ali", "Umar"]).2 = exStore :=
  ⟨rfl, (C7_atomicity exPrices exFaults exClock exStore "Pak Ahmad" ["Ali", "Umar"]
    .ErrStore).1 rfl⟩

/-- C5, refuted as stated: with a registered driver and an empty passenger
list both writers return no error and commit a leg row. -/
theorem C5_empty_list_accepted :
    SaveDeparture exPrices noFaults exClock exStore "Pak Ahmad" []
      = (.ok (), { exStore with departures := [⟨1, 1, 1700000000, 10000⟩] }) ∧
    SaveReturn exPrices noFaults exClock exStore "Pak Ahmad" []
      = (.ok (), { exStore with returns := [⟨1, 1, 1700000000, 10000⟩] }) :=
  ⟨rfl, rfl⟩

/-- C5, amended: for a registered driver and a working store, `SaveDeparture`
and `SaveReturn` with an empty passenger list return no error; the committed
database has a leg row of that driver stamped with the time of the call, and
that leg has no line item. -/
theorem C5_empty_list_leg_without_items (c : Constants) (clk : Clock) (db : Store)
    (driverName : String) (d : DriverRow) (hwf : db.WF)
    (hd : db.drivers.find? (fun d => d.name == driverName) = some d) :
    (∃ s2 l, SaveDeparture c noFaults clk db driverName [] = (.ok (), s2) ∧
      l ∈ s2.departures ∧ l.driver_id = d.id ∧ l.created_at = clk.now ∧
      itemsOf s2.departure_passengers l.id = []) ∧
    (∃ s2 l, SaveReturn c noFaults clk db driverName [] = (.ok (), s2) ∧
      l ∈ s2.returns ∧ l.driver_id = d.id ∧ l.created_at = clk.now ∧
      itemsOf s2.return_passengers l.id = []) :=
  ⟨saveLeg_nil c clk .Departure db driverName d hwf hd,
   saveLeg_nil c clk .Return db driverName d hwf hd⟩

/-- C5 amended, at a concrete call. -/
theorem C5_empty_list_leg_without_items_witness :
    (∃ s2 l, SaveDeparture exPrices noFaults exClock exStore "Pak Ahmad" [] = (.ok (), s2) ∧
      l ∈ s2.departures ∧ l.driver_id = 1 ∧ l.created_at = exClock.now ∧
      itemsOf s2.departure_passengers l.id = []) ∧
    (∃ s2 l, SaveReturn exPrices noFaults exClock exStore "Pak Ahmad" [] = (.ok (), s2) ∧
      l ∈ s2.returns ∧ l.driver_id = 1 ∧ l.created_at = exClock.now ∧
      itemsOf s2.return_passengers l.id = []) :=
  C5_empty_list_leg_without_items exPrices exClock exStore "Pak Ahmad"
    ⟨1, "Pak Ahmad", 1699990000⟩ (by decide) rfl

/-- C6, the code at the failing input: a passenger without a trip today who is
listed twice in one call is priced at `SingleTripPrice` both times, in
`SaveDeparture` and in `SaveReturn`; the trip count read for the second
occurrence is the one of the committed database, `0`. -/
theorem C6_second_occurrence_priced_single (c : Constants) :
    tripCount exStore exClock "Ali" = 0 ∧
    SaveDeparture c noFaults exClock exStore "Pak Ahmad" ["Ali", "Ali"]
      = (.ok (), { exStore with
          departures := [⟨1, 1, 1700000000, 10000⟩]
          departure_passengers :=
            [⟨1, "Ali", c.SingleTripPrice⟩, ⟨1, "Ali", c.SingleTripPrice⟩] }) ∧
    SaveReturn c noFaults exClock exStore "Pak Ahmad" ["Ali", "Ali"]
      = (.ok (), { exStore with
          returns := [⟨1, 1, 1700000000, 10000⟩]
          return_passengers :=
            [⟨1, "Ali", c.SingleTripPrice⟩, ⟨1, "Ali", c.SingleTripPrice⟩] }) :=
  ⟨rfl, rfl, rfl⟩

/-- C10, the code at the failing input: after `SaveDeparture` recorded a
passenger whose only line item today is that one, the same call again deletes
the item in the transaction, reads trip count `1` from the committed
database, and writes the price `RoundTripPrice - SingleTripPrice`; likewise
for `SaveReturn`. -/
theorem C10_rerecord_priced_as_second_trip (c : Constants) :
    (SaveDeparture c noFaults exClock exStore "Pak Ahmad" ["Ali"]).2.departure_passengers
      = [⟨1, "Ali", c.SingleTripPrice⟩] ∧
    tripCount (SaveDeparture c noFaults exClock exStore "Pak Ahmad" ["Ali"]).2 exClock "Ali"
      = 1 ∧
    (SaveDeparture c noFaults exClock
        (SaveDeparture c noFaults exClock exStore "Pak Ahmad" ["Ali"]).2
        "Pak Ahmad" ["Ali"]).2.departure_passengers
      = [⟨1, "Ali", c.RoundTripPrice - c.SingleTripPrice⟩] ∧
    (SaveReturn c noFaults exClock
        (SaveReturn c noFaults exClock exStore "Pak Ahmad" ["Ali"]).2
        "Pak Ahmad" ["Ali"]).2.return_passengers
      = [⟨1, "Ali", c.RoundTripPrice - c.SingleTripPrice⟩] :=
  ⟨rfl, rfl, rfl, rfl⟩

/-! ## Claims on series of calls -/

/-- C2: for a registered driver and a passenger without a line item today,
`SaveDeparture` with that passenger followed on the same day by `SaveReturn`
with that passenger (working store) return no error; the departure line item
is priced `SingleTripPrice`, the return line item
`RoundTripPrice - SingleTripPrice`, and the fares of the passenger today add
up to `RoundTripPrice`. -/
theorem C2_round_trip_discount (c : Constants) (db : Store) (driverName : String)
    (d : DriverRow) (p : String) (clk1 clk2 : Clock) (hwf : db.WF)
    (hd : db.drivers.find? (fun d => d.name == driverName) = some d)
    (hsame : sqlDate clk2.now = sqlDate clk1.now) (h0 : tripCount db clk1 p = 0) :
    ∃ s1 s2 id1 id2 kept1 kept2,
      SaveDeparture c noFaults clk1 db driverName [p] = (.ok (), s1) ∧
      SaveReturn c noFaults clk2 s1 driverName [p] = (.ok (), s2) ∧
      s1.departure_passengers = kept1 ++ [⟨id1, p, c.SingleTripPrice⟩] ∧
      s2.departure_passengers = s1.departure_passengers ∧
      s2.return_passengers = kept2 ++ [⟨id2, p, c.RoundTripPrice - c.SingleTripPrice⟩] ∧
      faresToday s2 (sqlDate clk2.now) p = c.RoundTripPrice := by
  obtain ⟨s1, s2, id1, id2, kept1, kept2, h1, h2, h3, h4, h5, -, h7⟩ :=
    depart_then_return c db driverName driverName d d p clk1 clk2 hwf hd hd hsame h0
  exact ⟨s1, s2, id1, id2, kept1, kept2, h1, h2, h3, h4, h5, h7⟩

/-- C2, at the scenario of the specification: driver Pak Ahmad takes Santri
Ali there and back on one day. -/
theorem C2_round_trip_discount_witness :
    ∃ s1 s2 id1 id2 kept1 kept2,
      SaveDeparture exPrices noFaults exClock exStore "Pak Ahmad" ["Santri Ali"]
        = (.ok (), s1) ∧
      SaveReturn exPrices noFaults exClock s1 "Pak Ahmad" ["Santri Ali"] = (.ok (), s2) ∧
      s1.departure_passengers = kept1 ++ [⟨id1, "Santri Ali", exPrices.SingleTripPrice⟩] ∧
      s2.departure_passengers = s1.departure_passengers ∧
      s2.return_passengers = kept2 ++
        [⟨id2, "Santri Ali", exPrices.RoundTripPrice - exPrices.SingleTripPrice⟩] ∧
      faresToday s2 (sqlDate exClock.now) "Santri Ali" = exPrices.RoundTripPrice :=
  C2_round_trip_discount exPrices exStore "Pak Ahmad" ⟨1, "Pak Ahmad", 1699990000⟩
    "Santri Ali" exClock exClock (by decide) rfl rfl (by decide)

/-- C8: under the primary-key constraint `GetPassengerTripPrice` returns the
number of departure line items plus the number of return line items with that
passenger name whose leg is dated today, the drivers of the legs playing no
part; and for any two registered drivers `a` and `b`, distinct or not, and a
passenger without a line item today, after `SaveDeparture` with `a` the trip
count of the passenger is `1`, so that `SaveReturn` with `b` on the same day
prices the return line item at `RoundTripPrice - SingleTripPrice`. -/
theorem C8_trip_count_global (c : Constants) (db : Store) (a b : String) (da dbr : DriverRow)
    (p : String) (clk1 clk2 : Clock) (hwf : db.WF)
    (ha : db.drivers.find? (fun d => d.name == a) = some da)
    (hb : db.drivers.find? (fun d => d.name == b) = some dbr)
    (hsame : sqlDate clk2.now = sqlDate clk1.now) (h0 : tripCount db clk1 p = 0) :
    (∀ (s : Store) (clk : Clock) (q : String), s.WF →
      GetPassengerTripPrice false s clk q = .ok
        ((itemsOnDay s.departures q (sqlDate clk.now) s.departure_passengers).length
          + (itemsOnDay s.returns q (sqlDate clk.now) s.return_passengers).length)) ∧
    ∃ s1 s2 id2 kept2,
      SaveDeparture c noFaults clk1 db a [p] = (.ok (), s1) ∧
      GetPassengerTripPrice false s1 clk2 p = .ok 1 ∧
      SaveReturn c noFaults clk2 s1 b [p] = (.ok (), s2) ∧
      s2.return_passengers = kept2 ++ [⟨id2, p, c.RoundTripPrice - c.SingleTripPrice⟩] := by
  refine ⟨?_, ?_⟩
  · intro s clk q hs
    simp only [GetPassengerTripPrice, Bool.false_eq_true, if_false]
    rw [tripCount_eq_itemsOnDay hs]
  · obtain ⟨s1, s2, -, id2, -, kept2, h1, h2, -, -, h5, h6, -⟩ :=
      depart_then_return c db a b da dbr p clk1 clk2 hwf ha hb hsame h0
    refine ⟨s1, s2, id2, kept2, h1, ?_, h2, h5⟩
    simp [GetPassengerTripPrice, h6]

/-- C8, at a concrete scenario: Pak Ahmad takes Ali there, Pak Budi takes Ali
back on the same day. -/
theorem C8_trip_count_global_witness :
    ∃ s1 s2 id2 kept2,
      SaveDeparture exPrices noFaults exClock exStore2 "Pak Ahmad" ["Ali"] = (.ok (), s1) ∧
      GetPassengerTripPrice false s1 exClock "Ali" = .ok 1 ∧
      SaveReturn exPrices noFaults exClock s1 "Pak Budi" ["Ali"] = (.ok (), s2) ∧
      s2.return_passengers = kept2 ++
        [⟨id2, "Ali", exPrices.RoundTripPrice - exPrices.SingleTripPrice⟩] :=
  (C8_trip_count_global exPrices exStore2 "Pak Ahmad" "Pak Budi"
    ⟨1, "Pak Ahmad", 1699990000⟩ ⟨2, "Pak Budi", 1699990001⟩ "Ali" exClock exClock
    (by decide) rfl rfl rfl (by decide)).2

/-- Where the upsert is idempotent: when at every call the local day of the
process and the UTC day of the store are the same day `D`, and the driver
has at most one leg of each kind on `D`, any series of `SaveDeparture` calls
with a working store (the `earlier` calls, then `last`) leaves exactly one
`departures` row of the driver dated `D`, whose line items are the names of
the last call, in input order; the same holds for `SaveReturn`. -/
theorem upsert_series_when_aligned (c : Constants) (db : Store) (driverName : String)
    (d : DriverRow) (D : Int) (earlier : List (Clock × List String))
    (last : Clock × List String) (hwf : db.WF)
    (hd : db.drivers.find? (fun d => d.name == driverName) = some d)
    (hday : ∀ call ∈ earlier ++ [last], call.1.today = D ∧ sqlDate call.1.now = D)
    (hdep : (legsOf db.departures d.id D).length ≤ 1)
    (hret : (legsOf db.returns d.id D).length ≤ 1) :
    (∃ l, legsOf ((earlier ++ [last]).foldl
          (fun s call => (SaveDeparture c noFaults call.1 s driverName call.2).2) db).departures
          d.id D = [l] ∧
        (itemsOf ((earlier ++ [last]).foldl
          (fun s call => (SaveDeparture c noFaults call.1 s driverName call.2).2)
            db).departure_passengers l.id).map (·.passenger_name) = last.2) ∧
    (∃ l, legsOf ((earlier ++ [last]).foldl
          (fun s call => (SaveReturn c noFaults call.1 s driverName call.2).2) db).returns
          d.id D = [l] ∧
        (itemsOf ((earlier ++ [last]).foldl
          (fun s call => (SaveReturn c noFaults call.1 s driverName call.2).2)
            db).return_passengers l.id).map (·.passenger_name) = last.2) :=
  ⟨saveLeg_upsert_series c .Departure driverName d D last earlier db hwf hd hday hdep,
   saveLeg_upsert_series c .Return driverName d D last earlier db hwf hd hday hret⟩

/-- The aligned upsert at a concrete series: two passengers are recorded, then
one other passenger, for the same driver, by a process that runs in UTC. -/
theorem upsert_series_when_aligned_witness :
    (∃ l, legsOf (([(exClock, ["Ali", "Umar"])] ++ [(exClock, ["Hasan"])]).foldl
          (fun s call => (SaveDeparture exPrices noFaults call.1 s "Pak Ahmad" call.2).2)
            exStore).departures 1 19675 = [l] ∧
        (itemsOf (([(exClock, ["Ali", "Umar"])] ++ [(exClock, ["Hasan"])]).foldl
          (fun s call => (SaveDeparture exPrices noFaults call.1 s "Pak Ahmad" call.2).2)
            exStore).departure_passengers l.id).map (·.passenger_name) = ["Hasan"]) ∧
    (∃ l, legsOf (([(exClock, ["Ali", "Umar"])] ++ [(exClock, ["Hasan"])]).foldl
          (fun s call => (SaveReturn exPrices noFaults call.1 s "Pak Ahmad" call.2).2)
            exStore).returns 1 19675 = [l] ∧
        (itemsOf (([(exClock, ["Ali", "Umar"])] ++ [(exClock, ["Hasan"])]).foldl
          (fun s call => (SaveReturn exPrices noFaults call.1 s "Pak Ahmad" call.2).2)
            exStore).return_passengers l.id).map (·.passenger_name) = ["Hasan"]) :=
  upsert_series_when_aligned exPrices exStore "Pak Ahmad" ⟨1, "Pak Ahmad", 1699990000⟩ 19675
    [(exClock, ["Ali", "Umar"])] (exClock, ["Hasan"]) (by decide) rfl (by decide) (by decide)
    (by decide)

/-- C3, the code at the failing input: a process in zone UTC+7, at 05:13 of
its day (22:13 UTC of the day before), records a departure of a registered
driver with two passengers and then, at the same instant, with one other
passenger.  The lookup of the second call compares the UTC date of the row
with the local date and finds nothing: both calls return no error, a second
`departures` row is inserted, and the line items of the first call survive.
The same holds for `SaveReturn`. -/
theorem C3_second_call_adds_a_leg (c : Constants) :
    exClockWIB.today = 19676 ∧ sqlDate exClockWIB.now = 19675 ∧
    SaveDeparture c noFaults exClockWIB
        (SaveDeparture c noFaults exClockWIB exStore "Pak Ahmad" ["Ali", "Umar"]).2
        "Pak Ahmad" ["Hasan"]
      = (.ok (), { exStore with
          departures := [⟨1, 1, 1700000000, 10000⟩, ⟨2, 1, 1700000000, 10000⟩]
          departure_passengers :=
            [⟨1, "Ali", c.SingleTripPrice⟩, ⟨1, "Umar", c.SingleTripPrice⟩,
             ⟨2, "Hasan", c.SingleTripPrice⟩] }) ∧
    SaveReturn c noFaults exClockWIB
        (SaveReturn c noFaults exClockWIB exStore "Pak Ahmad" ["Ali", "Umar"]).2
        "Pak Ahmad" ["Hasan"]
      = (.ok (), { exStore with
          returns := [⟨1, 1, 1700000000, 10000⟩, ⟨2, 1, 1700000000, 10000⟩]
          return_passengers :=
            [⟨1, "Ali", c.SingleTripPrice⟩, ⟨1, "Umar", c.SingleTripPrice⟩,
             ⟨2, "Hasan", c.SingleTripPrice⟩] }) :=
  ⟨by decide, by decide, rfl, rfl⟩

/-- C9, the code at the failing input: a process whose local day is ahead of
the UTC day of the store registers a driver and records the same departure
twice; both calls return no error, and the reached database has two
`departures` rows of that driver on one calendar date. -/
theorem C9_two_legs_one_day :
    Reachable exTwoLegs ∧
    (SaveDeparture exPrices noFaults exClockWIB
      (SaveDeparture exPrices noFaults exClockWIB
        (SaveDriver false exClockWIB Store.empty "Pak Ahmad").2 "Pak Ahmad" ["Ali"]).2
      "Pak Ahmad" ["Ali"]).1 = .ok () ∧
    legsOf exTwoLegs.departures 1 19675
      = [⟨1, 1, 1700000000, 10000⟩, ⟨2, 1, 1700000000, 10000⟩] ∧
    ¬ LegUnique exTwoLegs.departures := by
  refine ⟨?_, rfl, by decide, ?_⟩
  · exact Reachable.departure exPrices noFaults exClockWIB "Pak Ahmad" ["Ali"]
      (Reachable.departure exPrices noFaults exClockWIB "Pak Ahmad" ["Ali"]
        (Reachable.driver false exClockWIB "Pak Ahmad" Reachable.init))
  · intro h
    have h2 := h 1 19675
    revert h2
    decide

/-- Where the legs are unique: in every database reached from the fresh one
by a sequential series of `SaveDriver`, `SaveDeparture` and `SaveReturn`
calls, each made while the local day of the process is the UTC day of the
store and with a lookup of the leg that does not fail, there is at most one
`departures` row and at most one `returns` row per driver id and calendar
date; every further such call, failed or not, keeps this. -/
theorem leg_unique_when_aligned (s : Store) (h : ReachableAligned s) :
    (LegUnique s.departures ∧ LegUnique s.returns) ∧
    ∀ (c : Constants) (F : Faults) (clk : Clock) (driverName : String) (ps : List String),
      clk.today = sqlDate clk.now → F.legQuery = false →
      (LegUnique (SaveDeparture c F clk s driverName ps).2.departures ∧
        LegUnique (SaveDeparture c F clk s driverName ps).2.returns) ∧
      (LegUnique (SaveReturn c F clk s driverName ps).2.departures ∧
        LegUnique (SaveReturn c F clk s driverName ps).2.returns) := by
  have key : ∀ {t : Store}, ReachableAligned t →
      LegUnique t.departures ∧ LegUnique t.returns := fun ht =>
    ⟨(reachableAligned_invariant ht).2 .Departure, (reachableAligned_invariant ht).2 .Return⟩
  refine ⟨key h, ?_⟩
  intro c F clk driverName ps halign hq
  exact ⟨key (ReachableAligned.departure c F clk driverName ps halign hq h),
    key (ReachableAligned.ret c F clk driverName ps halign hq h)⟩

/-- Unique legs at a concrete series: a driver is registered and a departure
is recorded twice by a process that runs in UTC. -/
theorem leg_unique_when_aligned_witness :
    LegUnique (SaveDeparture exPrices noFaults exClock
        (SaveDeparture exPrices noFaults exClock
          (SaveDriver false exClock Store.empty "Pak Ahmad").2 "Pak Ahmad" ["Ali"]).2
        "Pak Ahmad" ["Ali"]).2.departures ∧
      LegUnique (SaveDeparture exPrices noFaults exClock
        (SaveDeparture exPrices noFaults exClock
          (SaveDriver false exClock Store.empty "Pak Ahmad").2 "Pak Ahmad" ["Ali"]).2
        "Pak Ahmad" ["Ali"]).2.returns :=
  (leg_unique_when_aligned _
    (ReachableAligned.departure exPrices noFaults exClock "Pak Ahmad" ["Ali"] (by decide) rfl
      (ReachableAligned.departure exPrices noFaults exClock "Pak Ahmad" ["Ali"] (by decide) rfl
        (ReachableAligned.driver false exClock "Pak Ahmad" ReachableAligned.init)))).1

/-- The other way to a second leg: the process runs in UTC, the departure of
the driver is on record, and in the next call the lookup of the leg fails;
the error is taken for "no leg", a second row is inserted and the call
returns no error. -/
theorem lookup_error_inserts_second_leg (c : Constants) :
    SaveDeparture c exFaultsLookup exClock
        (SaveDeparture c noFaults exClock exStore "Pak Ahmad" ["Ali"]).2 "Pak Ahmad" ["Ali"]
      = (.ok (), { exStore with
          departures := [⟨1, 1, 1700000000, 10000⟩, ⟨2, 1, 1700000000, 10000⟩]
          departure_passengers :=
            [⟨1, "Ali", c.SingleTripPrice⟩,
             ⟨2, "Ali", c.RoundTripPrice - c.SingleTripPrice⟩] }) :=
  rfl

/-! ## Claim on the dispatcher -/

/-- C11, the code at the failing input: the texts `antar` and `jemput` on
their own pass the test of the first word, are none of the commands and so
reach the `default` branch; splitting them on newlines yields one line, and
the slice expression `lines[2:]` fails with slice bounds out of range, low
bound `2` on length `1`, before `ProcessDeparture` / `ProcessReturn` is
called.  With the driver line added both expressions are in bounds and the
passenger lines are empty. -/
theorem C11_one_line_text_out_of_range :
    (lowerStartsWith "antar" "antar" = true ∧ isCommand "antar" = false ∧
      Split "antar" = ["antar"] ∧
      dispatch "antar" = .error (.sliceBoundsOutOfRange 2 1)) ∧
    (lowerStartsWith "jemput" "jemput" = true ∧ isCommand "jemput" = false ∧
      Split "jemput" = ["jemput"] ∧
      dispatch "jemput" = .error (.sliceBoundsOutOfRange 2 1)) ∧
    dispatch "antar\nDriver: Pak Ahmad"
      = .ok (.ProcessDeparture "Driver: Pak Ahmad" []) :=
  ⟨⟨rfl, rfl, rfl, rfl⟩, ⟨rfl, rfl, rfl, rfl⟩, rfl⟩

end Angkot
